import Mathlib

/-!
Verification of the Signal Sorter response-extraction and reconciliation
engine (`ai.js` service module and the chat API handler).

The JavaScript source is shallowly embedded: strings are Lean `String`s
(sequences of Unicode scalar values; the `.length` code-unit semantics of
JS is modelled by `jsLength` where it matters), the floating-point
similarity score is modelled by exact rationals (the scores arising here
are ratios of small naturals, where float64 comparison against 0.75 agrees
with the exact comparison), and the host JSON parser is modelled by an
executable JSON parser for the JSON grammar.  Functions that can throw in
JS (`JSON.parse`, property access on `null`, calling `.trim` on a
non-string) are modelled with `Option`/`Except`.  `String.prototype
.toLowerCase` is modelled on the ASCII fragment (`Char.toLower`), which is
adequate because every comparison key produced by `normalize` is ASCII.
-/

namespace SigSort

/-! ## JavaScript string primitives -/

/-- The character class `\s` of JS regexes (whitespace and line
terminators, including the Unicode space separators). -/
def isSpaceJS (c : Char) : Bool :=
  c == ' ' || c == '\t' || c == '\n' || c == '\r' ||
  c.toNat == 11 || c.toNat == 12 || c.toNat == 0xa0 || c.toNat == 0x1680 ||
  (0x2000 ≤ c.toNat && c.toNat ≤ 0x200a) ||
  c.toNat == 0x2028 || c.toNat == 0x2029 || c.toNat == 0x202f ||
  c.toNat == 0x205f || c.toNat == 0x3000 || c.toNat == 0xfeff

/-- The character class `\w` of JS regexes: `[A-Za-z0-9_]`. -/
def isWordChar (c : Char) : Bool :=
  ('a' ≤ c && c ≤ 'z') || ('A' ≤ c && c ≤ 'Z') || ('0' ≤ c && c ≤ '9') || c == '_'

/-- Drop a trailing run of characters satisfying `p`. -/
def dropTrailing (p : Char → Bool) (cs : List Char) : List Char :=
  (cs.reverse.dropWhile p).reverse

/-- `String.prototype.trim`: strip leading and trailing whitespace. -/
def trimJS (cs : List Char) : List Char :=
  dropTrailing isSpaceJS (cs.dropWhile isSpaceJS)

/-- Worker for `collapseWS`; the flag records whether the previous
character was whitespace (so a whitespace run emits one space). -/
def collapseWSGo : Bool → List Char → List Char
  | _, [] => []
  | prevSpace, c :: rest =>
    if isSpaceJS c then
      if prevSpace then collapseWSGo true rest else ' ' :: collapseWSGo true rest
    else c :: collapseWSGo false rest

/-- `.replace(/\s+/g, ' ')`: collapse every whitespace run to one space. -/
def collapseWS (cs : List Char) : List Char := collapseWSGo false cs

/-- Case-insensitively drop the pattern `pat` (given in lower case) from
the front of `cs`; `none` when `cs` does not start with it. -/
def dropCI : List Char → List Char → Option (List Char)
  | [], cs => some cs
  | _ :: _, [] => none
  | p :: ps, c :: cs => if Char.toLower c == p then dropCI ps cs else none

/-- `.replace(/^(signal|necessary|noise)[:\s]*/i, '')`: drop one leading
classification word (alternatives tried left to right) together with the
maximal following run of colons/whitespace.  The pattern does not require
the word to be a standalone token. -/
def stripClassLabel (cs : List Char) : List Char :=
  match dropCI "signal".data cs with
  | some r => r.dropWhile (fun c => c == ':' || isSpaceJS c)
  | none =>
    match dropCI "necessary".data cs with
    | some r => r.dropWhile (fun c => c == ':' || isSpaceJS c)
    | none =>
      match dropCI "noise".data cs with
      | some r => r.dropWhile (fun c => c == ':' || isSpaceJS c)
      | none => cs

/-- `.replace(/^\*+|\*+$/g, '')`: remove the leading and the trailing run
of asterisks. -/
def stripStars (cs : List Char) : List Char :=
  dropTrailing (· == '*') (cs.dropWhile (· == '*'))

/-- `.replace(/\*\*/g, '')`: remove non-overlapping `**` pairs, scanning
left to right. -/
def removeDoubleStar : List Char → List Char
  | '*' :: '*' :: rest => removeDoubleStar rest
  | c :: rest => c :: removeDoubleStar rest
  | [] => []

/-- `normalize` from the source: lower-case, strip one classification
label, remove everything outside `[\w\s]`, collapse whitespace, trim. -/
def normalize (text : String) : String :=
  String.mk (trimJS (collapseWS
    (List.filter (fun c => isWordChar c || isSpaceJS c)
      (stripClassLabel (text.data.map Char.toLower)))))

/-- `cleanName` from the source: trim, strip surrounding asterisk runs and
`**` bold markers, strip one classification label, collapse whitespace,
trim. -/
def cleanName (name : String) : String :=
  String.mk (trimJS (collapseWS
    (stripClassLabel (removeDoubleStar (stripStars (trimJS name.data))))))

/-- JS `String.prototype.length` counts UTF-16 code units: astral-plane
characters count twice. -/
def jsLength (s : String) : Nat :=
  s.data.foldl (fun n c => n + (if 0x10000 ≤ c.toNat then 2 else 1)) 0

/-! ## Levenshtein distance

The source fills the full dynamic-programming matrix for the classic
recurrence (cost 1 insertions, deletions and substitutions; the diagonal
is taken directly on equal characters).  We embed the recurrence itself,
made structural with a fuel argument so that it evaluates inside the
kernel; `levenshtein` supplies sufficient fuel. -/

def levF : Nat → List Char → List Char → Nat
  | _, [], b => b.length
  | _, _ :: as, [] => as.length + 1
  | f + 1, x :: xs, y :: ys =>
    if x = y then levF f xs ys
    else 1 + min (levF f xs ys) (min (levF f (x :: xs) ys) (levF f xs (y :: ys)))
  | 0, _ :: _, _ :: _ => 0

/-- Levenshtein distance between two character lists. -/
def levenshtein (a b : List Char) : Nat := levF (a.length + b.length) a b

theorem levF_nil_left (f : Nat) (b : List Char) : levF f [] b = b.length := by
  cases f <;> rfl

theorem levF_cons_nil (f : Nat) (x : Char) (xs : List Char) :
    levF f (x :: xs) [] = xs.length + 1 := by
  cases f <;> rfl

theorem levF_succ_cons (f : Nat) (x y : Char) (xs ys : List Char) :
    levF (f + 1) (x :: xs) (y :: ys) =
      if x = y then levF f xs ys
      else 1 + min (levF f xs ys) (min (levF f (x :: xs) ys) (levF f xs (y :: ys))) := rfl

theorem levF_stable : ∀ (f g : Nat) (a b : List Char),
    a.length + b.length ≤ f → a.length + b.length ≤ g → levF f a b = levF g a b := by
  intro f
  induction f with
  | zero =>
    intro g a b hf _
    match a with
    | [] => rw [levF_nil_left, levF_nil_left]
    | x :: xs => simp at hf
  | succ f ih =>
    intro g a b hf hg
    match a with
    | [] => rw [levF_nil_left, levF_nil_left]
    | x :: xs =>
      match b with
      | [] => rw [levF_cons_nil, levF_cons_nil]
      | y :: ys =>
        match g with
        | 0 => simp at hg
        | g + 1 =>
          rw [levF_succ_cons, levF_succ_cons]
          simp only [List.length_cons] at hf hg
          rw [ih g xs ys (by omega) (by omega),
              ih g (x :: xs) ys (by simp; omega) (by simp; omega),
              ih g xs (y :: ys) (by simp; omega) (by simp; omega)]

theorem levenshtein_nil_left (b : List Char) : levenshtein [] b = b.length := by
  rw [levenshtein, levF_nil_left]

theorem levenshtein_cons_nil (x : Char) (xs : List Char) :
    levenshtein (x :: xs) [] = xs.length + 1 := by
  rw [levenshtein, levF_cons_nil]

theorem levenshtein_cons_cons (x y : Char) (xs ys : List Char) :
    levenshtein (x :: xs) (y :: ys) =
      if x = y then levenshtein xs ys
      else 1 + min (levenshtein xs ys)
        (min (levenshtein (x :: xs) ys) (levenshtein xs (y :: ys))) := by
  have h : (x :: xs).length + (y :: ys).length = (xs.length + ys.length + 1) + 1 := by
    simp; omega
  rw [levenshtein, h, levF_succ_cons]
  rw [levF_stable (xs.length + ys.length + 1) (xs.length + ys.length) xs ys (by omega) (by omega),
      levF_stable (xs.length + ys.length + 1) ((x :: xs).length + ys.length) (x :: xs) ys
        (by simp only [List.length_cons]; omega) (by simp only [List.length_cons]; omega),
      levF_stable (xs.length + ys.length + 1) (xs.length + (y :: ys).length) xs (y :: ys)
        (by simp only [List.length_cons]; omega) (by simp only [List.length_cons]; omega)]
  rfl

/-! ## Similarity and matching -/

/-- `similarity` from the source: normalize both strings, then
`1 - distance / maxLen`, with the empty/empty case defined as 1.
(`normalize` produces ASCII output, so `String.length` agrees with the JS
code-unit length here.) -/
def similarity (a b : String) : ℚ :=
  let normalized1 := normalize a
  let normalized2 := normalize b
  let maxLen := max normalized1.length normalized2.length
  if maxLen = 0 then 1
  else 1 - (levenshtein normalized1.data normalized2.data : ℚ) / (maxLen : ℚ)

/-- A tracked item as stored by the record store. -/
structure Item where
  id : Nat
  name : String
  classification : String
  what : String
  why : String
  next_action : String
  completed : Bool
deriving DecidableEq

/-- One step of the `findMatchingItem` loop: keep the first item whose
score strictly exceeds both the threshold and the best score so far. -/
def matchStep (normalizedName : String) (threshold : ℚ)
    (best : Option Item × ℚ) (item : Item) : Option Item × ℚ :=
  let score := similarity normalizedName (normalize item.name)
  if score > threshold ∧ score > best.2 then (some item, score) else best

/-- `findMatchingItem` from the source. -/
def findMatchingItem (name : String) (existingItems : List Item)
    (threshold : ℚ := 3 / 4) : Option Item :=
  let normalizedName := normalize name
  (existingItems.foldl (matchStep normalizedName threshold)
    ((none : Option Item), (0 : ℚ))).1

/-! ## JSON values and the host JSON parser

`JSON.parse` of the host environment, modelled executably.  Numbers are
kept as exact rationals.  Lone surrogate escapes (which JS would keep as
unpaired UTF-16 units) are mapped to U+FFFD, a modelling boundary that no
claim touches. -/

inductive Json where
  | null
  | bool (b : Bool)
  | num (q : ℚ)
  | str (s : String)
  | arr (elts : List Json)
  | obj (members : List (String × Json))

/-- JSON whitespace (the four characters the JSON grammar allows). -/
def skipWSJson (cs : List Char) : List Char :=
  cs.dropWhile (fun c => c == ' ' || c == '\t' || c == '\n' || c == '\r')

def isDigit (c : Char) : Bool := '0' ≤ c && c ≤ '9'

def hexVal (c : Char) : Option Nat :=
  if isDigit c then some (c.toNat - 48)
  else if 'a' ≤ c && c ≤ 'f' then some (c.toNat - 87)
  else if 'A' ≤ c && c ≤ 'F' then some (c.toNat - 70)
  else none

/-- JSON string body parser (after the opening quote), with the escape
sequences of the JSON grammar; control characters are rejected.  The fuel
is structural for the kernel; every step consumes at least one character,
so input length as fuel always suffices. -/
def parseStrGo (acc : List Char) : Nat → List Char → Option (String × List Char)
  | 0, _ => none
  | _ + 1, [] => none
  | _ + 1, '"' :: rest => some (String.mk acc.reverse, rest)
  | f + 1, '\\' :: 'u' :: h1 :: h2 :: h3 :: h4 :: rest =>
    match hexVal h1, hexVal h2, hexVal h3, hexVal h4 with
    | some a, some b, some c, some d =>
      let n := ((a * 16 + b) * 16 + c) * 16 + d
      if 0xd800 ≤ n ∧ n ≤ 0xdbff then
        match rest with
        | '\\' :: 'u' :: g1 :: g2 :: g3 :: g4 :: rest2 =>
          match hexVal g1, hexVal g2, hexVal g3, hexVal g4 with
          | some a2, some b2, some c2, some d2 =>
            let m := ((a2 * 16 + b2) * 16 + c2) * 16 + d2
            if 0xdc00 ≤ m ∧ m ≤ 0xdfff then
              parseStrGo (Char.ofNat (0x10000 + (n - 0xd800) * 0x400 + (m - 0xdc00)) :: acc) f rest2
            else parseStrGo (Char.ofNat 0xfffd :: acc) f rest
          | _, _, _, _ => none
        | _ => parseStrGo (Char.ofNat 0xfffd :: acc) f rest
      else if 0xdc00 ≤ n ∧ n ≤ 0xdfff then parseStrGo (Char.ofNat 0xfffd :: acc) f rest
      else parseStrGo (Char.ofNat n :: acc) f rest
    | _, _, _, _ => none
  | f + 1, '\\' :: e :: rest =>
    if e == '"' then parseStrGo ('"' :: acc) f rest
    else if e == '\\' then parseStrGo ('\\' :: acc) f rest
    else if e == '/' then parseStrGo ('/' :: acc) f rest
    else if e == 'b' then parseStrGo (Char.ofNat 0x08 :: acc) f rest
    else if e == 'f' then parseStrGo (Char.ofNat 0x0c :: acc) f rest
    else if e == 'n' then parseStrGo ('\n' :: acc) f rest
    else if e == 'r' then parseStrGo ('\r' :: acc) f rest
    else if e == 't' then parseStrGo ('\t' :: acc) f rest
    else none
  | f + 1, c :: rest => if c.toNat < 0x20 then none else parseStrGo (c :: acc) f rest

/-- JSON string parser (after the opening quote). -/
def parseStr (cs : List Char) : Option (String × List Char) :=
  parseStrGo [] (cs.length + 1) cs

def digitsVal (ds : List Char) : Nat := ds.foldl (fun n c => n * 10 + (c.toNat - 48)) 0

/-- Fractional part: a dot must be followed by at least one digit. -/
def parseFrac : List Char → Option (List Char × List Char)
  | '.' :: r =>
    let ds := r.takeWhile isDigit
    if ds.isEmpty then none else some (ds, r.dropWhile isDigit)
  | cs => some ([], cs)

/-- Exponent part: `e`/`E`, optional sign, at least one digit. -/
def parseExpPart : List Char → Option (Bool × List Char × List Char)
  | c :: r =>
    if c == 'e' || c == 'E' then
      let (en, r1) := match r with
        | '+' :: rr => (false, rr)
        | '-' :: rr => (true, rr)
        | _ => (false, r)
      let ds := r1.takeWhile isDigit
      if ds.isEmpty then none else some (en, ds, r1.dropWhile isDigit)
    else some (false, [], c :: r)
  | [] => some (false, [], [])

/-- Exact value of a JSON number literal. -/
def jsonNumVal (neg : Bool) (ids fds : List Char) (expNeg : Bool) (eds : List Char) : ℚ :=
  let mant : ℚ := ((digitsVal ids * 10 ^ fds.length + digitsVal fds : Nat) : ℚ)
  let base : ℚ := mant / ((10 ^ fds.length : Nat) : ℚ)
  let scaled : ℚ :=
    if expNeg then base / ((10 ^ digitsVal eds : Nat) : ℚ)
    else base * ((10 ^ digitsVal eds : Nat) : ℚ)
  if neg then -scaled else scaled

/-- JSON number parser (strict grammar: no leading zeros, no bare dot). -/
def parseNum (cs : List Char) : Option (Json × List Char) :=
  let (neg, cs1) := match cs with
    | '-' :: r => (true, r)
    | _ => (false, cs)
  match cs1.takeWhile isDigit with
  | [] => none
  | d :: ds =>
    if d == '0' ∧ ¬ ds.isEmpty then none
    else
      let cs2 := cs1.dropWhile isDigit
      match parseFrac cs2 with
      | none => none
      | some (fds, cs3) =>
        match parseExpPart cs3 with
        | none => none
        | some (en, eds, cs4) => some (.num (jsonNumVal neg (d :: ds) fds en eds), cs4)

mutual

/-- JSON value parser; the fuel decreases at each nested call and bounds
the recursion depth (the caller supplies more fuel than the input length,
so it never runs out on a parseable input). -/
def parseVal : Nat → List Char → Option (Json × List Char)
  | 0, _ => none
  | f + 1, cs =>
    match skipWSJson cs with
    | 'n' :: 'u' :: 'l' :: 'l' :: rest => some (.null, rest)
    | 't' :: 'r' :: 'u' :: 'e' :: rest => some (.bool true, rest)
    | 'f' :: 'a' :: 'l' :: 's' :: 'e' :: rest => some (.bool false, rest)
    | '"' :: rest =>
      match parseStr rest with
      | some (s, r) => some (.str s, r)
      | none => none
    | '[' :: rest => parseArr f rest
    | '\x7b' :: rest => parseObj f rest
    | rest => parseNum rest

def parseArr : Nat → List Char → Option (Json × List Char)
  | 0, _ => none
  | f + 1, cs =>
    match skipWSJson cs with
    | ']' :: rest => some (.arr [], rest)
    | cs1 => parseArrElems f cs1 []

def parseArrElems : Nat → List Char → List Json → Option (Json × List Char)
  | 0, _, _ => none
  | f + 1, cs, acc =>
    match parseVal f cs with
    | none => none
    | some (v, r) =>
      match skipWSJson r with
      | ',' :: r2 => parseArrElems f r2 (v :: acc)
      | ']' :: r2 => some (.arr (v :: acc).reverse, r2)
      | _ => none

def parseObj : Nat → List Char → Option (Json × List Char)
  | 0, _ => none
  | f + 1, cs =>
    match skipWSJson cs with
    | '\x7d' :: rest => some (.obj [], rest)
    | cs1 => parseObjMembers f cs1 []

def parseObjMembers : Nat → List Char → List (String × Json) → Option (Json × List Char)
  | 0, _, _ => none
  | f + 1, cs, acc =>
    match skipWSJson cs with
    | '"' :: r =>
      match parseStr r with
      | none => none
      | some (k, r1) =>
        match skipWSJson r1 with
        | ':' :: r2 =>
          match parseVal f r2 with
          | none => none
          | some (v, r3) =>
            match skipWSJson r3 with
            | ',' :: r4 => parseObjMembers f r4 ((k, v) :: acc)
            | '\x7d' :: r4 => some (.obj ((k, v) :: acc).reverse, r4)
            | _ => none
        | _ => none
    | _ => none

end

/-- `JSON.parse`: parse one value and require only whitespace after it;
`none` models the thrown `SyntaxError`. -/
def jsonParse (s : String) : Option Json :=
  match parseVal (2 * s.data.length + 4) s.data with
  | some (j, rest) => if (skipWSJson rest).isEmpty then some j else none
  | none => none

/-- Property lookup on a parsed JSON object: with duplicate keys,
`JSON.parse` keeps the last occurrence. -/
def getMemberLast (k : String) : List (String × Json) → Option Json
  | [] => none
  | (k', v) :: rest =>
    match getMemberLast k rest with
    | some r => some r
    | none => if k' == k then some v else none

/-- JS property access `j.k` on a parsed JSON value; `none` means
`undefined`.  (Access on `null` throws instead; callers model that case
separately.) -/
def memberOf (j : Json) (k : String) : Option Json :=
  match j with
  | .obj ms => getMemberLast k ms
  | _ => none

/-- JS truthiness of a parsed JSON value. -/
def jsTruthy : Json → Bool
  | .null => false
  | .bool b => b
  | .num q => decide (q ≠ 0)
  | .str s => s != ""
  | .arr _ => true
  | .obj _ => true

/-- JS truthiness of a possibly-`undefined` value. -/
def truthyOpt : Option Json → Bool
  | some j => jsTruthy j
  | none => false

/-- JS strict equality between a string and an arbitrary JSON value. -/
def jsStrictEqStr (j : Json) (s : String) : Bool :=
  match j with
  | .str t => t == s
  | _ => false

/-! ## The response parser (`parseResponse`)

The two extraction tiers of the source, lines 161-263: a fenced JSON block
first, then the marker-glyph regex patterns when the first tier produced
no output.  Candidate fields coming from parsed JSON are arbitrary JS
values and are kept as `Json`; string values originating in the code
(`''` defaults, the regex-tier classification literals, fields retained
from existing items) are injected with `Json.str`. -/

/-- An element of the `newItems` output array. -/
structure NewItem where
  name : String
  classification : Json
  what : Json
  why : Json
  next_action : Json

/-- An element of the `updates` output array. -/
structure Update where
  id : Nat
  classification : Json
  what : Json
  why : Json
  next_action : Json

/-- The mutable state of `parseResponse`: the two output arrays and the
`seenNames` set (normalized names, shared by both tiers). -/
structure ParseState where
  newItems : List NewItem
  updates : List Update
  seen : List String

def emptyState : ParseState := ⟨[], [], []⟩

/-- What `parseResponse` returns. -/
structure ParseResult where
  newItems : List NewItem
  updates : List Update

/-- Does `cs` begin with a fenced-JSON opener (case-insensitive `json`)?
If so, return what follows it. -/
def fenceAt : List Char → Option (List Char)
  | '`' :: '`' :: '`' :: c1 :: c2 :: c3 :: c4 :: rest =>
    if Char.toLower c1 == 'j' && Char.toLower c2 == 's' &&
       Char.toLower c3 == 'o' && Char.toLower c4 == 'n'
    then some rest else none
  | _ => none

/-- First occurrence of a fenced-JSON opener. -/
def findFenceStart : List Char → Option (List Char)
  | [] => none
  | c :: rest =>
    match fenceAt (c :: rest) with
    | some r => some r
    | none => findFenceStart rest

/-- Split at the first triple-backtick: text before it and text after. -/
def splitAtClose : List Char → Option (List Char × List Char)
  | '`' :: '`' :: '`' :: rest => some ([], rest)
  | c :: rest =>
    match splitAtClose rest with
    | some (pre, suf) => some (c :: pre, suf)
    | none => none
  | [] => none

/-- `response.match(/```json\s*([\s\S]*?)\s*```/i)`: the capture of the
first fenced JSON block, i.e. the text between the first opener and the
next triple-backtick with surrounding whitespace stripped (the greedy
leading `\s*` and trailing `\s*` of the pattern), or `none` when the
pattern does not occur. -/
def extractFenced (response : String) : Option (List Char) :=
  match findFenceStart response.data with
  | none => none
  | some r =>
    match splitAtClose (r.dropWhile isSpaceJS) with
    | none => none
    | some (pre, _) => some (dropTrailing isSpaceJS pre)

/-- `parsed.items || parsed`, followed by the `Array.isArray` guard: the
element list the structured tier iterates over.  `parsed.items` on `null`
throws (`Except.error`); a non-array result yields no elements. -/
def getItemsList : Json → Except Unit (List Json)
  | .null => .error ()
  | .obj ms =>
    match getMemberLast "items" ms with
    | some v => if jsTruthy v then (match v with | .arr l => .ok l | _ => .ok []) else .ok []
    | none => .ok []
  | .arr l => .ok l
  | _ => .ok []

/-- `o || fb` on a possibly-`undefined` JSON value with a string
fallback. -/
def jsOrStr (o : Option Json) (fb : String) : Json :=
  match o with
  | some v => if jsTruthy v then v else .str fb
  | none => .str fb

/-- The filters and reconciliation of one structured-tier element whose
`name` member is the string `s` (the part of source lines 178-210 below
the presence checks). -/
def processNamedItem (existingItems : List Item) (st : ParseState) (j : Json)
    (s : String) : ParseState :=
  let cleanedName := cleanName s
  if jsLength cleanedName < 3 then st
  else
    let normalizedName := normalize cleanedName
    if st.seen.contains normalizedName then st
    else
      let st1 : ParseState := { st with seen := normalizedName :: st.seen }
      let cls := (memberOf j "classification").getD .null
      match findMatchingItem cleanedName existingItems with
      | some m =>
        if jsStrictEqStr cls m.classification then st1
        else { st1 with updates := st1.updates ++ [⟨m.id, cls,
            jsOrStr (memberOf j "what") m.what,
            jsOrStr (memberOf j "why") m.why,
            jsOrStr (memberOf j "next") m.next_action⟩] }
      | none =>
        { st1 with newItems := st1.newItems ++ [⟨cleanedName, cls,
            jsOrStr (memberOf j "what") "",
            jsOrStr (memberOf j "why") "",
            jsOrStr (memberOf j "next") ""⟩] }

/-- The string carried by a JS value, when it is a string (`cleanName`
can be called on it without throwing). -/
def nameString : Option Json → Option String
  | some (.str s) => some s
  | _ => none

/-- The loop body of the structured tier (source lines 175-211) on one
array element.  `Except.error` models a thrown `TypeError` (element
`null`, or a truthy non-string `name` fed to `cleanName`): the loop stops,
keeping the state accumulated so far. -/
def processJsonItem (existingItems : List Item) (st : ParseState) (j : Json) :
    Except ParseState ParseState :=
  match j with
  | .null => .error st
  | _ =>
    if ¬ (truthyOpt (memberOf j "name") ∧ truthyOpt (memberOf j "classification")) then .ok st
    else
      match nameString (memberOf j "name") with
      | some s => .ok (processNamedItem existingItems st j s)
      | none => .error st

/-- Run the structured-tier loop over the array elements, stopping at a
thrown element but keeping the accumulated state (the arrays live outside
the `try`). -/
def runJsonItems (existingItems : List Item) : List Json → ParseState → ParseState
  | [], st => st
  | j :: rest, st =>
    match processJsonItem existingItems st j with
    | .ok st' => runJsonItems existingItems rest st'
    | .error st' => st'

/-- The structured JSON tier of `parseResponse`: extract the fenced block,
parse it, and process the elements; any failure leaves the state empty
(the `catch` only logs). -/
def jsonTier (response : String) (existingItems : List Item) : ParseState :=
  match extractFenced response with
  | none => emptyState
  | some content =>
    match jsonParse (String.mk content) with
    | none => emptyState
    | some parsed =>
      match getItemsList parsed with
      | .error _ => emptyState
      | .ok items => runJsonItems existingItems items emptyState

/-! ### The fallback regex tier -/

/-- Case-sensitive list-of-chars match at the front. -/
def listStartsWithCS : List Char → List Char → Bool
  | [], _ => true
  | _ :: _, [] => false
  | p :: ps, c :: cs => c == p && listStartsWithCS ps cs

/-- `String.prototype.includes` on character lists. -/
def listHasSub (pat : List Char) : List Char → Bool
  | [] => pat.isEmpty
  | c :: rest => listStartsWithCS pat (c :: rest) || listHasSub pat rest

/-- The commentary-phrase guard list of `isInvalidPhrase`. -/
def invalidPhrases : List String :=
  ["your top", "looking at", "here\x27s", "let me", "based on",
   "priority right now", "focus on", "i recommend", "you should",
   "the key", "most important", "start with"]

/-- `isInvalidPhrase` from the source: the lower-cased name contains one
of the guard phrases. -/
def isInvalidPhrase (name : String) : Bool :=
  let lower := String.mk (name.data.map Char.toLower)
  invalidPhrases.any (fun p => listHasSub p.data lower.data)

/-- The captures of one match of a marker pattern. -/
structure RegexCaps where
  name : List Char
  what : Option (List Char)
  why : Option (List Char)
  next : Option (List Char)

def isColonOrSpace (c : Char) : Bool := c == ':' || isSpaceJS c

/-- One optional group `(?:\|\s*KW:\s*([^|]+))?` (`kw` given lower-case
with its colon).  Returns the capture (if the group participated) and the
resume position.  When the greedy `\s*` leaves nothing for `([^|]+)` the
regex backtracks one whitespace character into the capture. -/
def optGroup (kw : List Char) (cs : List Char) : Option (List Char) × List Char :=
  match cs with
  | '|' :: r =>
    match dropCI kw (r.dropWhile isSpaceJS) with
    | none => (none, cs)
    | some r2 =>
      let spRun := r2.takeWhile isSpaceJS
      let r3 := r2.dropWhile isSpaceJS
      let cap := r3.takeWhile (fun c => !(c == '|'))
      let r4 := r3.dropWhile (fun c => !(c == '|'))
      if !cap.isEmpty then (some cap, r4)
      else
        match spRun.getLast? with
        | some lastSp => (some [lastSp], r3)
        | none => (none, cs)
  | _ => (none, cs)

/-- The final optional group `(?:\|\s*NEXT:\s*([^\n]+))?`, whose capture
runs to the end of the line.  Backtracking into the greedy `\s*` must
stop before a newline, so the resume position keeps the newline run. -/
def optGroupNext (kw : List Char) (cs : List Char) : Option (List Char) × List Char :=
  match cs with
  | '|' :: r =>
    match dropCI kw (r.dropWhile isSpaceJS) with
    | none => (none, cs)
    | some r2 =>
      let spRun := r2.takeWhile isSpaceJS
      let r3 := r2.dropWhile isSpaceJS
      let cap := r3.takeWhile (fun c => !(c == '\n'))
      let r4 := r3.dropWhile (fun c => !(c == '\n'))
      if !cap.isEmpty then (some cap, r4)
      else
        match (spRun.reverse.dropWhile (fun c => c == '\n')) with
        | [] => (none, cs)
        | lastNonNl :: _ =>
          (some [lastNonNl], (spRun.reverse.takeWhile (fun c => c == '\n')).reverse ++ r3)
  | _ => (none, cs)

/-- Attempt one marker pattern
`/<glyph>\s*TAG[:\s]+([^|]+)(?:\|\s*WHAT:...)?.../gi` at the head of
`cs`; on success return the captures and the position after the match.
When the greedy `[:\s]+` leaves nothing for the name capture `([^|]+)`,
the regex backtracks one separator character into the capture. -/
def markerAt (glyph : Char) (tag : List Char) (cs : List Char) :
    Option (RegexCaps × List Char) :=
  match cs with
  | [] => none
  | c :: rest =>
    if c == glyph then
      match dropCI tag (rest.dropWhile isSpaceJS) with
      | none => none
      | some r2 =>
        let sepRun := r2.takeWhile isColonOrSpace
        let r3 := r2.dropWhile isColonOrSpace
        if sepRun.isEmpty then none
        else
          let cap1 := r3.takeWhile (fun c => !(c == '|'))
          let r4 := r3.dropWhile (fun c => !(c == '|'))
          let nameAndRest : Option (List Char × List Char) :=
            if !cap1.isEmpty then some (cap1, r4)
            else
              match sepRun.getLast? with
              | some lastSep => if 2 ≤ sepRun.length then some ([lastSep], r3) else none
              | none => none
          match nameAndRest with
          | none => none
          | some (nm, afterName) =>
            let g2 := optGroup "what:".data afterName
            let g3 := optGroup "why:".data g2.2
            let g4 := optGroupNext "next:".data g3.2
            some (⟨nm, g2.1, g3.1, g4.1⟩, g4.2)
    else none

/-- The `regex.exec` loop for one pattern: successive non-overlapping
matches, scanning left to right. -/
def scanMarkers (glyph : Char) (tag : List Char) : Nat → List Char → List RegexCaps
  | 0, _ => []
  | _ + 1, [] => []
  | f + 1, c :: rest =>
    match markerAt glyph tag (c :: rest) with
    | some (caps, r) => caps :: scanMarkers glyph tag f r
    | none => scanMarkers glyph tag f rest

/-- `match[i]?.trim() || fb`. -/
def strOrElse (o : Option (List Char)) (fb : String) : String :=
  match o with
  | some cs =>
    let t := String.mk (trimJS cs)
    if t == "" then fb else t
  | none => fb

/-- The loop body of the fallback tier (source lines 228-258) on one
regex match. -/
def processCaps (existingItems : List Item) (classification : String)
    (st : ParseState) (caps : RegexCaps) : ParseState :=
  let cleanedName := cleanName (String.mk caps.name)
  if jsLength cleanedName < 3 then st
  else
    let normalizedName := normalize cleanedName
    if st.seen.contains normalizedName then st
    else if isInvalidPhrase cleanedName then st
    else
      let st1 : ParseState := { st with seen := normalizedName :: st.seen }
      match findMatchingItem cleanedName existingItems with
      | some m =>
        if classification == m.classification then st1
        else { st1 with updates := st1.updates ++ [⟨m.id, .str classification,
            .str (strOrElse caps.what m.what),
            .str (strOrElse caps.why m.why),
            .str (strOrElse caps.next m.next_action)⟩] }
      | none =>
        { st1 with newItems := st1.newItems ++ [⟨cleanedName, .str classification,
            .str (strOrElse caps.what ""),
            .str (strOrElse caps.why ""),
            .str (strOrElse caps.next "")⟩] }

/-- The three marker patterns: glyph, tag (for the case-insensitive
match), classification literal. -/
def fallbackPatterns : List (Char × String × String) :=
  [('🟢', "signal", "SIGNAL"), ('🟡', "necessary", "NECESSARY"), ('🔴', "noise", "NOISE")]

/-- The fallback regex tier, continuing from the state left by the
structured tier (the `seenNames` set is shared). -/
def fallbackTier (response : String) (existingItems : List Item)
    (st0 : ParseState) : ParseState :=
  fallbackPatterns.foldl
    (fun st pat =>
      (scanMarkers pat.1 pat.2.1.data response.data.length response.data).foldl
        (processCaps existingItems pat.2.2) st)
    st0

/-- `parseResponse` from the source: the structured tier, then the
fallback tier exactly when the structured tier produced no new items and
no updates. -/
def parseResponse (response : String) (existingItems : List Item) : ParseResult :=
  let st1 := jsonTier response existingItems
  match st1.newItems, st1.updates with
  | [], [] =>
    let st2 := fallbackTier response existingItems st1
    ⟨st2.newItems, st2.updates⟩
  | _, _ => ⟨st1.newItems, st1.updates⟩

/-- The extraction part of `analyzeWithAI` (source lines 304-307): the
full, unfiltered existing-item list is passed to `parseResponse`;
reprioritize mode skips extraction. -/
def analyzeItems (aiResponse : String) (existingItems : List Item)
    (isReprioritize : Bool) : ParseResult :=
  if isReprioritize then ⟨[], []⟩ else parseResponse aiResponse existingItems

/-! ## The reconciliation pass on string-typed candidates

Claim C7 speaks about reconciling a candidate set (name, classification
and elaboration fields are strings, as in the spec's `TaskCandidate`)
against a store.  This is the common loop body of both tiers of
`parseResponse` (source lines 174-211), specialised to string-valued
fields. -/

/-- A parsed task candidate (the spec's `TaskCandidate`). -/
structure Candidate where
  name : String
  classification : String
  what : String
  why : String
  next_action : String
deriving DecidableEq

/-- A new item emitted by reconciliation, string-typed. -/
structure NewItemS where
  name : String
  classification : String
  what : String
  why : String
  next_action : String
deriving DecidableEq

/-- An update emitted by reconciliation, string-typed. -/
structure UpdateS where
  id : Nat
  classification : String
  what : String
  why : String
  next_action : String
deriving DecidableEq

/-- State of the reconciliation loop. -/
structure RecState where
  newItems : List NewItemS
  updates : List UpdateS
  seen : List String
deriving DecidableEq

/-- `a || b` on strings (empty is falsy). -/
def strOr (s fb : String) : String := if s == "" then fb else s

/-- The reconciliation loop body on one candidate: clean/length/dedup
filters, then match → new, update, or silent drop. -/
def processCandidate (existingItems : List Item) (st : RecState) (c : Candidate) : RecState :=
  let cleanedName := cleanName c.name
  if jsLength cleanedName < 3 then st
  else
    let normalizedName := normalize cleanedName
    if st.seen.contains normalizedName then st
    else
      let st1 : RecState := { st with seen := normalizedName :: st.seen }
      match findMatchingItem cleanedName existingItems with
      | some m =>
        if c.classification == m.classification then st1
        else { st1 with updates := st1.updates ++ [⟨m.id, c.classification,
            strOr c.what m.what, strOr c.why m.why, strOr c.next_action m.next_action⟩] }
      | none =>
        { st1 with newItems := st1.newItems ++ [⟨cleanedName, c.classification,
            c.what, c.why, c.next_action⟩] }

/-- Reconcile a candidate list against the existing items. -/
def reconcile (candidates : List Candidate) (existingItems : List Item) : RecState :=
  candidates.foldl (processCandidate existingItems) ⟨[], [], []⟩

/-- Apply one update record to the store (fields overwritten on the item
with the matching id). -/
def applyUpdate (items : List Item) (u : UpdateS) : List Item :=
  items.map (fun e =>
    if e.id = u.id then
      { e with classification := u.classification, what := u.what,
               why := u.why, next_action := u.next_action }
    else e)

/-- Apply a list of update records in order. -/
def applyUpdates (items : List Item) (us : List UpdateS) : List Item :=
  us.foldl applyUpdate items

/-- Persist an emitted new item (a fresh id, not completed). -/
def itemOfNew (fid : Nat) (n : NewItemS) : Item :=
  ⟨fid, n.name, n.classification, n.what, n.why, n.next_action, false⟩

/-! ## The chat API handler (`callAnthropic`)

The network is modelled by the environment function `status`: the HTTP
status the fetch of attempt `i` comes back with.  The trace records the
statuses received, the sleeps performed before retries, and the final
outcome. -/

def MAX_RETRIES : Nat := 2
def RETRY_DELAY : Nat := 1000

/-- `response.ok` of `fetch`: status in the 200-299 range. -/
def respOk (status : Nat) : Bool := 200 ≤ status && status ≤ 299

/-- Outcome of a `callAnthropic` call: returned normally, or threw. -/
inductive CallOutcome where
  | success
  | failure (status : Nat)
deriving DecidableEq

/-- Trace of one `callAnthropic` call tree. -/
structure CallTrace where
  attempts : List Nat
  delays : List Nat
  result : CallOutcome
deriving DecidableEq

/-- `callAnthropic` (source lines 17-47), with fuel for the bounded
recursion (the recursion depth is at most `MAX_RETRIES + 1`, so the fuel
supplied by the wrapper is never exhausted). -/
def callAnthropicF : Nat → (Nat → Nat) → Nat → CallTrace
  | 0, _, _ => ⟨[], [], .failure 0⟩
  | fuel + 1, status, attempt =>
    let s := status attempt
    if respOk s then ⟨[s], [], .success⟩
    else if 500 ≤ s ∧ attempt ≤ MAX_RETRIES then
      let r := callAnthropicF fuel status (attempt + 1)
      ⟨s :: r.attempts, RETRY_DELAY * attempt :: r.delays, r.result⟩
    else ⟨[s], [], .failure s⟩

/-- `callAnthropic(apiKey, system, message)` with the default
`attempt = 1`. -/
def callAnthropic (status : Nat → Nat) : CallTrace :=
  callAnthropicF (MAX_RETRIES + 1) status 1

/-- The handler's post-processing (source lines 79-88): on a successful
call, an empty extracted completion text is turned into a 500 error;
errors from `callAnthropic` become a 500 error. -/
def handlerResult (status : Nat → Nat) (text : String) : Except String String :=
  match (callAnthropic status).result with
  | .failure _ => .error "Failed to process request"
  | .success => if text == "" then .error "Empty response from AI" else .ok text

/-! ## Edit-distance theory

`levenshtein` computes the minimum number of single-character insertions,
deletions and substitutions transforming one string into the other
(claim C4).  `EditStep a b` is one such operation; `CanTransform a b n`
says `n` operations take `a` to `b`. -/

/-- One edit operation at an arbitrary position. -/
inductive EditStep : List Char → List Char → Prop where
  | ins (l r : List Char) (c : Char) : EditStep (l ++ r) (l ++ c :: r)
  | del (l r : List Char) (c : Char) : EditStep (l ++ c :: r) (l ++ r)
  | sub (l r : List Char) (c c' : Char) : EditStep (l ++ c :: r) (l ++ c' :: r)

/-- `n` edit operations transform `a` into `b`. -/
inductive CanTransform : List Char → List Char → Nat → Prop where
  | refl (a : List Char) : CanTransform a a 0
  | step {a b c : List Char} {n : Nat} :
      EditStep a b → CanTransform b c n → CanTransform a c (n + 1)

theorem CanTransform.trans {a b c : List Char} {m n : Nat}
    (h1 : CanTransform a b m) (h2 : CanTransform b c n) : CanTransform a c (m + n) := by
  induction h1 with
  | refl => simpa using h2
  | @step a' b' c' k e h ih =>
    have h3 : k + 1 + n = (k + n) + 1 := by omega
    rw [h3]
    exact CanTransform.step e (ih h2)

theorem CanTransform.single {a b : List Char} (h : EditStep a b) : CanTransform a b 1 :=
  CanTransform.step h (CanTransform.refl b)

theorem CanTransform.snoc {a b c : List Char} {n : Nat}
    (h : CanTransform a b n) (e : EditStep b c) : CanTransform a c (n + 1) :=
  h.trans (CanTransform.single e)

theorem editStep_cons {a b : List Char} (x : Char) (h : EditStep a b) :
    EditStep (x :: a) (x :: b) := by
  cases h with
  | ins l r c => exact EditStep.ins (x :: l) r c
  | del l r c => exact EditStep.del (x :: l) r c
  | sub l r c c' => exact EditStep.sub (x :: l) r c c'

theorem canTransform_cons {a b : List Char} {n : Nat} (x : Char)
    (h : CanTransform a b n) : CanTransform (x :: a) (x :: b) n := by
  induction h with
  | refl => exact CanTransform.refl _
  | step e _ ih => exact CanTransform.step (editStep_cons x e) ih

theorem canTransform_nil_left : ∀ b : List Char, CanTransform [] b b.length
  | [] => CanTransform.refl []
  | y :: ys =>
    CanTransform.step (EditStep.ins [] [] y) (canTransform_cons y (canTransform_nil_left ys))

theorem canTransform_nil_right : ∀ a : List Char, CanTransform a [] a.length
  | [] => CanTransform.refl []
  | x :: xs => CanTransform.step (EditStep.del [] xs x) (canTransform_nil_right xs)

/-- The Levenshtein distance is achieved by some edit sequence. -/
theorem canTransform_levenshtein : ∀ (n : Nat) (a b : List Char),
    a.length + b.length ≤ n → CanTransform a b (levenshtein a b) := by
  intro n
  induction n using Nat.strong_induction_on with
  | _ n ih =>
    intro a b hab
    match a with
    | [] =>
      rw [levenshtein_nil_left]
      exact canTransform_nil_left b
    | x :: xs =>
      match b with
      | [] =>
        rw [levenshtein_cons_nil]
        exact canTransform_nil_right (x :: xs)
      | y :: ys =>
        simp only [List.length_cons] at hab
        rw [levenshtein_cons_cons]
        by_cases hxy : x = y
        · subst hxy
          rw [if_pos rfl]
          exact canTransform_cons x (ih (n - 1) (by omega) xs ys (by omega))
        · rw [if_neg hxy]
          set A := levenshtein xs ys with hA
          set B := levenshtein (x :: xs) ys with hB
          set C := levenshtein xs (y :: ys) with hC
          have hmin : min A (min B C) = A ∨ min A (min B C) = B ∨ min A (min B C) = C := by
            omega
          rcases hmin with h | h | h
          · rw [h, Nat.add_comm 1 A]
            have h1 : EditStep (x :: xs) (y :: xs) := EditStep.sub [] xs x y
            have h2 : CanTransform (y :: xs) (y :: ys) A :=
              (canTransform_cons y (ih (n - 1) (by omega) xs ys (by omega)))
            exact CanTransform.step h1 h2
          · rw [h, Nat.add_comm 1 B]
            have h2 : CanTransform (x :: xs) ys B :=
              ih (n - 1) (by omega) (x :: xs) ys (by simp only [List.length_cons]; omega)
            exact h2.snoc (EditStep.ins [] ys y)
          · rw [h, Nat.add_comm 1 C]
            have h2 : CanTransform xs (y :: ys) C :=
              ih (n - 1) (by omega) xs (y :: ys) (by simp only [List.length_cons]; omega)
            exact CanTransform.step (EditStep.del [] xs x) h2

theorem levenshtein_self : ∀ a : List Char, levenshtein a a = 0
  | [] => by rw [levenshtein_nil_left]; rfl
  | x :: xs => by rw [levenshtein_cons_cons, if_pos rfl]; exact levenshtein_self xs

theorem levenshtein_comm_aux : ∀ (n : Nat) (a b : List Char),
    a.length + b.length ≤ n → levenshtein a b = levenshtein b a := by
  intro n
  induction n using Nat.strong_induction_on with
  | _ n ih =>
    intro a b hab
    match a, b with
    | [], [] => rfl
    | [], y :: ys =>
      rw [levenshtein_nil_left, levenshtein_cons_nil]
      rfl
    | x :: xs, [] =>
      rw [levenshtein_nil_left, levenshtein_cons_nil]
      rfl
    | x :: xs, y :: ys =>
      simp only [List.length_cons] at hab
      have e1 : levenshtein xs ys = levenshtein ys xs :=
        ih (n - 1) (by omega) xs ys (by omega)
      have e2 : levenshtein (x :: xs) ys = levenshtein ys (x :: xs) :=
        ih (n - 1) (by omega) (x :: xs) ys (by simp only [List.length_cons]; omega)
      have e3 : levenshtein xs (y :: ys) = levenshtein (y :: ys) xs :=
        ih (n - 1) (by omega) xs (y :: ys) (by simp only [List.length_cons]; omega)
      rw [levenshtein_cons_cons, levenshtein_cons_cons]
      by_cases hxy : x = y
      · subst hxy
        rw [if_pos rfl, if_pos rfl]
        exact e1
      · rw [if_neg hxy, if_neg (fun h => hxy h.symm)]
        rw [e1, e2, e3]
        omega

theorem levenshtein_comm (a b : List Char) : levenshtein a b = levenshtein b a :=
  levenshtein_comm_aux (a.length + b.length) a b le_rfl

/-- Simultaneous front-character lemmas: inserting, deleting or
substituting the head of the right argument changes the distance by at
most one. -/
theorem lev_front : ∀ (n : Nat) (a b : List Char), a.length + b.length ≤ n →
    (∀ c : Char, levenshtein a (c :: b) ≤ 1 + levenshtein a b) ∧
    (∀ c : Char, levenshtein a b ≤ 1 + levenshtein a (c :: b)) ∧
    (∀ c c' : Char, levenshtein a (c :: b) ≤ 1 + levenshtein a (c' :: b)) := by
  intro n
  induction n using Nat.strong_induction_on with
  | _ n ih =>
    intro a b hab
    match a with
    | [] =>
      refine ⟨fun c => ?_, fun c => ?_, fun c c' => ?_⟩
      · simp only [levenshtein_nil_left, List.length_cons]
        omega
      · simp only [levenshtein_nil_left, List.length_cons]
        omega
      · simp only [levenshtein_nil_left, List.length_cons]
        omega
    | x :: xs =>
      simp only [List.length_cons] at hab
      have IHxb := ih (xs.length + b.length) (by omega) xs b le_rfl
      have IHbx := ih (b.length + xs.length) (by omega) b xs le_rfl
      have I_L : ∀ c : Char, levenshtein (c :: xs) b ≤ 1 + levenshtein xs b := by
        intro c
        rw [levenshtein_comm (c :: xs) b, levenshtein_comm xs b]
        exact IHbx.1 c
      have D_L : ∀ c : Char, levenshtein xs b ≤ 1 + levenshtein (c :: xs) b := by
        intro c
        rw [levenshtein_comm (c :: xs) b, levenshtein_comm xs b]
        exact IHbx.2.1 c
      refine ⟨fun c => ?_, fun c => ?_, fun c c' => ?_⟩
      · rw [levenshtein_cons_cons]
        by_cases hxc : x = c
        · rw [if_pos hxc]
          exact D_L x
        · rw [if_neg hxc]
          omega
      · rw [levenshtein_cons_cons]
        by_cases hxc : x = c
        · rw [if_pos hxc]
          exact I_L x
        · rw [if_neg hxc]
          have h1 := I_L x
          have h2 := IHxb.2.1 c
          omega
      · rw [levenshtein_cons_cons, levenshtein_cons_cons]
        by_cases hxc : x = c <;> by_cases hxc' : x = c'
        · rw [if_pos hxc, if_pos hxc']
          omega
        · rw [if_pos hxc, if_neg hxc']
          have h1 := D_L x
          have h2 := IHxb.2.1 c'
          omega
        · rw [if_neg hxc, if_pos hxc']
          omega
        · rw [if_neg hxc, if_neg hxc']
          have h3 := IHxb.2.2 c c'
          omega

theorem lev_ins_head (a b : List Char) (c : Char) :
    levenshtein a (c :: b) ≤ 1 + levenshtein a b :=
  (lev_front (a.length + b.length) a b le_rfl).1 c

theorem lev_del_head (a b : List Char) (c : Char) :
    levenshtein a b ≤ 1 + levenshtein a (c :: b) :=
  (lev_front (a.length + b.length) a b le_rfl).2.1 c

theorem lev_sub_head (a b : List Char) (c c' : Char) :
    levenshtein a (c :: b) ≤ 1 + levenshtein a (c' :: b) :=
  (lev_front (a.length + b.length) a b le_rfl).2.2 c c'

/-- A pointwise bound between right arguments survives a common head. -/
theorem lev_congr_cons (u v : List Char) (k : Nat)
    (h : ∀ a, levenshtein a u ≤ k + levenshtein a v) (z : Char) :
    ∀ a, levenshtein a (z :: u) ≤ k + levenshtein a (z :: v) := by
  intro a
  induction a with
  | nil =>
    have h0 := h []
    simp only [levenshtein_nil_left, List.length_cons] at h0 ⊢
    omega
  | cons x xs ihA =>
    rw [levenshtein_cons_cons, levenshtein_cons_cons]
    have h1 := h xs
    have h2 := h (x :: xs)
    by_cases hxz : x = z
    · rw [if_pos hxz, if_pos hxz]
      exact h1
    · rw [if_neg hxz, if_neg hxz]
      omega

theorem lev_del_at (a l r : List Char) (d : Char) :
    levenshtein a (l ++ r) ≤ 1 + levenshtein a (l ++ d :: r) := by
  induction l generalizing a with
  | nil => exact lev_del_head a r d
  | cons z l' ihl => exact lev_congr_cons (l' ++ r) (l' ++ d :: r) 1 ihl z a

theorem lev_ins_at (a l r : List Char) (d : Char) :
    levenshtein a (l ++ d :: r) ≤ 1 + levenshtein a (l ++ r) := by
  induction l generalizing a with
  | nil => exact lev_ins_head a r d
  | cons z l' ihl => exact lev_congr_cons (l' ++ d :: r) (l' ++ r) 1 ihl z a

theorem lev_sub_at (a l r : List Char) (d d' : Char) :
    levenshtein a (l ++ d :: r) ≤ 1 + levenshtein a (l ++ d' :: r) := by
  induction l generalizing a with
  | nil => exact lev_sub_head a r d d'
  | cons z l' ihl => exact lev_congr_cons (l' ++ d :: r) (l' ++ d' :: r) 1 ihl z a

/-- One edit on the left argument changes the distance by at most one. -/
theorem lev_le_editStep {a b : List Char} (h : EditStep a b) (c : List Char) :
    levenshtein a c ≤ 1 + levenshtein b c := by
  cases h with
  | ins l r d =>
    rw [levenshtein_comm (l ++ r) c, levenshtein_comm (l ++ d :: r) c]
    exact lev_del_at c l r d
  | del l r d =>
    rw [levenshtein_comm (l ++ d :: r) c, levenshtein_comm (l ++ r) c]
    exact lev_ins_at c l r d
  | sub l r d d' =>
    rw [levenshtein_comm (l ++ d :: r) c, levenshtein_comm (l ++ d' :: r) c]
    exact lev_sub_at c l r d d'

/-- The Levenshtein distance is a lower bound on every edit sequence. -/
theorem levenshtein_le_canTransform {a b : List Char} {n : Nat}
    (h : CanTransform a b n) : levenshtein a b ≤ n := by
  induction h with
  | refl a => simp [levenshtein_self]
  | @step a' b' c' k e h ih =>
    have h1 := lev_le_editStep e c'
    omega

/-- `levenshtein a b` is the minimum number of edit operations taking `a`
to `b`. -/
theorem levenshtein_isLeast (a b : List Char) :
    IsLeast {n | CanTransform a b n} (levenshtein a b) :=
  ⟨canTransform_levenshtein (a.length + b.length) a b le_rfl,
   fun _ hn => levenshtein_le_canTransform hn⟩

theorem levenshtein_le_max_aux : ∀ (n : Nat) (a b : List Char),
    a.length + b.length ≤ n → levenshtein a b ≤ max a.length b.length := by
  intro n
  induction n using Nat.strong_induction_on with
  | _ n ih =>
    intro a b hab
    match a, b with
    | [], b =>
      rw [levenshtein_nil_left]
      simp only [List.length_nil]
      omega
    | x :: xs, [] =>
      rw [levenshtein_cons_nil]
      simp only [List.length_nil, List.length_cons]
      omega
    | x :: xs, y :: ys =>
      simp only [List.length_cons] at hab
      have h1 : levenshtein xs ys ≤ max xs.length ys.length :=
        ih (n - 1) (by omega) xs ys (by omega)
      rw [levenshtein_cons_cons]
      by_cases hxy : x = y
      · rw [if_pos hxy]
        simp only [List.length_cons]
        omega
      · rw [if_neg hxy]
        simp only [List.length_cons]
        omega

theorem levenshtein_le_max (a b : List Char) :
    levenshtein a b ≤ max a.length b.length :=
  levenshtein_le_max_aux (a.length + b.length) a b le_rfl

/-! ### Similarity score facts -/

theorem similarity_formula (a b : String) :
    similarity a b =
      if max (normalize a).length (normalize b).length = 0 then 1
      else 1 - (levenshtein (normalize a).data (normalize b).data : ℚ) /
        ((max (normalize a).length (normalize b).length : Nat) : ℚ) := rfl

theorem similarity_nonneg (a b : String) : 0 ≤ similarity a b := by
  rw [similarity_formula]
  split_ifs with h
  · norm_num
  · have hle : levenshtein (normalize a).data (normalize b).data ≤
        max (normalize a).length (normalize b).length :=
      levenshtein_le_max (normalize a).data (normalize b).data
    have hpos : (0 : ℚ) < ((max (normalize a).length (normalize b).length : Nat) : ℚ) := by
      exact_mod_cast Nat.pos_of_ne_zero h
    rw [sub_nonneg, div_le_one hpos]
    exact_mod_cast hle

theorem similarity_le_one (a b : String) : similarity a b ≤ 1 := by
  rw [similarity_formula]
  split_ifs with h
  · exact le_rfl
  · have hpos : (0 : ℚ) < ((max (normalize a).length (normalize b).length : Nat) : ℚ) := by
      exact_mod_cast Nat.pos_of_ne_zero h
    have hnn : (0 : ℚ) ≤ (levenshtein (normalize a).data (normalize b).data : ℚ) / _ :=
      div_nonneg (by positivity) (le_of_lt hpos)
    linarith

theorem similarity_self (a : String) : similarity a a = 1 := by
  rw [similarity_formula]
  split_ifs with h
  · rfl
  · rw [levenshtein_self]
    simp

/-! ## Characterisation of `findMatchingItem` -/

theorem findMatchingItem_eq (name : String) (E : List Item) (th : ℚ) :
    findMatchingItem name E th =
      (E.foldl (matchStep (normalize name) th) ((none : Option Item), (0 : ℚ))).1 := rfl

set_option maxHeartbeats 1000000 in
/-- Full characterisation of the `findMatchingItem` fold: the running
best score never decreases, and the result is either the unchanged
accumulator (with every scanned score at most the threshold or at most
the accumulator score) or the first item attaining the maximal score,
which strictly exceeds the threshold. -/
theorem findFold_spec (nn : String) (th : ℚ) :
    ∀ (E : List Item) (acc : Option Item × ℚ),
    ((acc.1 = none ∧ acc.2 = 0) ∨
      (∃ m0, acc.1 = some m0 ∧ acc.2 = similarity nn (normalize m0.name) ∧
        similarity nn (normalize m0.name) > th)) →
    acc.2 ≤ (E.foldl (matchStep nn th) acc).2 ∧
    (((E.foldl (matchStep nn th) acc).1 = acc.1 ∧
      (E.foldl (matchStep nn th) acc).2 = acc.2 ∧
      ∀ e ∈ E, similarity nn (normalize e.name) ≤ th ∨
        similarity nn (normalize e.name) ≤ acc.2) ∨
     (∃ m, m ∈ E ∧ (E.foldl (matchStep nn th) acc).1 = some m ∧
       (E.foldl (matchStep nn th) acc).2 = similarity nn (normalize m.name) ∧
       similarity nn (normalize m.name) > th ∧
       ∀ e ∈ E, similarity nn (normalize e.name) ≤ similarity nn (normalize m.name))) := by
  intro E
  induction E with
  | nil =>
    intro acc _
    refine ⟨le_rfl, Or.inl ⟨rfl, rfl, ?_⟩⟩
    intro e he
    cases he
  | cons e E' ihE =>
    intro acc hacc
    simp only [List.foldl_cons]
    by_cases hcond : similarity nn (normalize e.name) > th ∧
        similarity nn (normalize e.name) > acc.2
    · have hstep : matchStep nn th acc e = (some e, similarity nn (normalize e.name)) := by
        simp only [matchStep]
        rw [if_pos hcond]
      rw [hstep]
      obtain ⟨hmono, hres⟩ := ihE (some e, similarity nn (normalize e.name))
        (Or.inr ⟨e, rfl, rfl, hcond.1⟩)
      refine ⟨le_trans (le_of_lt hcond.2) hmono, ?_⟩
      rcases hres with ⟨hfst, hsnd, hall⟩ | ⟨m, hm, hfst, hsnd, hth, hall⟩
      · right
        refine ⟨e, List.mem_cons_self e E', hfst, hsnd, hcond.1, ?_⟩
        intro e' he'
        rcases List.mem_cons.mp he' with h | h
        · subst h
          exact le_rfl
        · rcases hall e' h with h2 | h2
          · exact le_trans h2 (le_of_lt hcond.1)
          · exact h2
      · right
        refine ⟨m, List.mem_cons_of_mem e hm, hfst, hsnd, hth, ?_⟩
        intro e' he'
        rcases List.mem_cons.mp he' with h | h
        · subst h
          exact le_trans hmono (le_of_eq hsnd)
        · exact hall e' h
    · have hstep : matchStep nn th acc e = acc := by
        simp only [matchStep]
        rw [if_neg hcond]
      rw [hstep]
      obtain ⟨hmono, hres⟩ := ihE acc hacc
      refine ⟨hmono, ?_⟩
      have hesc : similarity nn (normalize e.name) ≤ th ∨
          similarity nn (normalize e.name) ≤ acc.2 := by
        by_cases h1 : similarity nn (normalize e.name) > th
        · by_cases h2 : similarity nn (normalize e.name) > acc.2
          · exact absurd ⟨h1, h2⟩ hcond
          · exact Or.inr (le_of_not_lt h2)
        · exact Or.inl (le_of_not_lt h1)
      rcases hres with ⟨hfst, hsnd, hall⟩ | ⟨m, hm, hfst, hsnd, hth, hall⟩
      · left
        refine ⟨hfst, hsnd, ?_⟩
        intro e' he'
        rcases List.mem_cons.mp he' with h | h
        · subst h
          exact hesc
        · exact hall e' h
      · right
        refine ⟨m, List.mem_cons_of_mem e hm, hfst, hsnd, hth, ?_⟩
        intro e' he'
        rcases List.mem_cons.mp he' with h | h
        · subst h
          rcases hesc with h2 | h2
          · exact le_trans h2 (le_of_lt hth)
          · exact le_trans h2 (le_trans hmono (le_of_eq hsnd))
        · exact hall e' h

/-- `findMatchingItem` returns `none` exactly when no existing item's
score strictly exceeds the threshold. -/
theorem findMatchingItem_none_iff (name : String) (E : List Item) :
    findMatchingItem name E = none ↔
      ∀ e ∈ E, similarity (normalize name) (normalize e.name) ≤ 3 / 4 := by
  rw [findMatchingItem_eq]
  obtain ⟨hmono, hres⟩ := findFold_spec (normalize name) (3 / 4) E (none, 0)
    (Or.inl ⟨rfl, rfl⟩)
  constructor
  · intro h e he
    rcases hres with ⟨hfst, hsnd, hall⟩ | ⟨m, hm, hfst, hsnd, hth, hall⟩
    · rcases hall e he with h1 | h1
      · exact h1
      · exact le_trans h1 (by norm_num)
    · rw [h] at hfst
      cases hfst
  · intro hall
    rcases hres with ⟨hfst, hsnd, _⟩ | ⟨m, hm, hfst, hsnd, hth, _⟩
    · exact hfst
    · exact absurd hth (not_lt.mpr (hall m hm))

/-- When `findMatchingItem` returns a match, it is a member whose score
strictly exceeds the threshold and is maximal among all items. -/
theorem findMatchingItem_some_spec (name : String) (E : List Item) (m : Item)
    (h : findMatchingItem name E = some m) :
    m ∈ E ∧ similarity (normalize name) (normalize m.name) > 3 / 4 ∧
      ∀ e ∈ E, similarity (normalize name) (normalize e.name) ≤
        similarity (normalize name) (normalize m.name) := by
  rw [findMatchingItem_eq] at h
  obtain ⟨hmono, hres⟩ := findFold_spec (normalize name) (3 / 4) E (none, 0)
    (Or.inl ⟨rfl, rfl⟩)
  rcases hres with ⟨hfst, _, _⟩ | ⟨m', hm', hfst, hsnd, hth, hall⟩
  · rw [h] at hfst
    cases hfst
  · rw [h] at hfst
    cases hfst
    exact ⟨hm', hth, hall⟩

/-- A candidate whose normalized name equals that of an existing item
always finds a match. -/
theorem findMatchingItem_ne_none_of_eq {n : String} {E : List Item} {e : Item}
    (he : e ∈ E) (heq : normalize n = normalize e.name) :
    findMatchingItem n E ≠ none := by
  intro h
  have h1 := (findMatchingItem_none_iff n E).mp h e he
  rw [heq, similarity_self] at h1
  norm_num at h1

/-- Matching never looks at the `completed` flag. -/
theorem matchStep_mapFlag (nn : String) (th : ℚ) (b : Bool)
    (acc : Option Item × ℚ) (e : Item) :
    matchStep nn th (acc.1.map (fun i => { i with completed := b }), acc.2)
        ({ e with completed := b }) =
      ((matchStep nn th acc e).1.map (fun i => { i with completed := b }),
        (matchStep nn th acc e).2) := by
  simp only [matchStep]
  by_cases hcond : similarity nn (normalize e.name) > th ∧
      similarity nn (normalize e.name) > acc.2
  · rw [if_pos hcond, if_pos hcond]
    rfl
  · rw [if_neg hcond, if_neg hcond]

theorem findFold_mapFlag (nn : String) (th : ℚ) (b : Bool) :
    ∀ (E : List Item) (acc : Option Item × ℚ),
      (E.map (fun i => { i with completed := b })).foldl (matchStep nn th)
        (acc.1.map (fun i => { i with completed := b }), acc.2) =
      ((E.foldl (matchStep nn th) acc).1.map (fun i => { i with completed := b }),
        (E.foldl (matchStep nn th) acc).2) := by
  intro E
  induction E with
  | nil => intro acc; rfl
  | cons e E' ihE =>
    intro acc
    simp only [List.map_cons, List.foldl_cons]
    rw [matchStep_mapFlag]
    exact ihE (matchStep nn th acc e)

theorem findMatchingItem_mapFlag (name : String) (E : List Item) (b : Bool) :
    findMatchingItem name (E.map (fun i => { i with completed := b })) =
      (findMatchingItem name E).map (fun i => { i with completed := b }) := by
  rw [findMatchingItem_eq, findMatchingItem_eq]
  have h := findFold_mapFlag (normalize name) (3 / 4) b E (none, 0)
  exact congrArg Prod.fst h

/-- Pointwise-equal fold functions give equal folds. -/
theorem foldl_congruence {α β : Type} (f g : β → α → β) (h : ∀ acc x, f acc x = g acc x) :
    ∀ (l : List α) (init : β), l.foldl f init = l.foldl g init := by
  intro l
  induction l with
  | nil => intro init; rfl
  | cons x xs ih =>
    intro init
    simp only [List.foldl_cons]
    rw [h]
    exact ih (g init x)

/-! ## State invariants of `parseResponse`

Every new item emitted carries a normalized name that clashes neither
with the supplied existing items nor with another emitted new item
(claim C2). -/

/-- The state invariant: every accumulated new item is normalized-name
distinct from every existing item, its normalized name is recorded in
`seen`, and the accumulated new items are normalized-name distinct from
one another. -/
def stateOk (E : List Item) (st : ParseState) : Prop :=
  (∀ x ∈ st.newItems,
    (∀ e ∈ E, normalize x.name ≠ normalize e.name) ∧ normalize x.name ∈ st.seen) ∧
  (st.newItems.map (fun x => normalize x.name)).Nodup

theorem stateOk_empty (E : List Item) : stateOk E emptyState := by
  constructor
  · intro x hx
    cases hx
  · exact List.nodup_nil

/-- Result state of the structured-tier loop body, whether or not the
element threw. -/
def exceptState : Except ParseState ParseState → ParseState
  | .ok st => st
  | .error st => st

theorem stateOk_extend_seen (E : List Item) (st : ParseState) (nn : String)
    (h : stateOk E st) : stateOk E { st with seen := nn :: st.seen } := by
  constructor
  · intro x hx
    obtain ⟨hne, hmem⟩ := h.1 x hx
    exact ⟨hne, List.mem_cons_of_mem _ hmem⟩
  · exact h.2

theorem stateOk_push_update (E : List Item) (st : ParseState) (nn : String)
    (u : Update) (h : stateOk E st) :
    stateOk E { st with
      seen := nn :: st.seen
      updates := st.updates ++ [u] } := by
  constructor
  · intro x hx
    obtain ⟨hne, hmem⟩ := h.1 x hx
    exact ⟨hne, List.mem_cons_of_mem _ hmem⟩
  · exact h.2

theorem stateOk_push_new (E : List Item) (st : ParseState) (s : String)
    (cls w wy nx : Json) (h : stateOk E st)
    (hfind : findMatchingItem (cleanName s) E = none)
    (hnotseen : normalize (cleanName s) ∉ st.seen) :
    stateOk E { st with
      seen := normalize (cleanName s) :: st.seen
      newItems := st.newItems ++ [⟨cleanName s, cls, w, wy, nx⟩] } := by
  constructor
  · intro x hx
    rcases List.mem_append.mp hx with hx | hx
    · obtain ⟨hne, hmem⟩ := h.1 x hx
      exact ⟨hne, List.mem_cons_of_mem _ hmem⟩
    · rw [List.mem_singleton] at hx
      subst hx
      refine ⟨?_, List.mem_cons_self _ _⟩
      intro e he heq
      exact findMatchingItem_ne_none_of_eq he heq hfind
  · rw [List.map_append]
    refine List.Nodup.append h.2 (List.nodup_singleton _) ?_
    intro a ha hb
    rw [List.map_singleton, List.mem_singleton] at hb
    subst hb
    rcases List.mem_map.mp ha with ⟨x, hx, hxa⟩
    obtain ⟨_, hmem⟩ := h.1 x hx
    rw [hxa] at hmem
    exact hnotseen hmem

theorem contains_true_iff (l : List String) (s : String) :
    l.contains s = true ↔ s ∈ l := by
  simp

theorem contains_false_iff (l : List String) (s : String) :
    l.contains s = false ↔ s ∉ l := by
  constructor
  · intro h hm
    have h2 := (contains_true_iff l s).mpr hm
    rw [h] at h2
    cases h2
  · intro h
    cases hcb : l.contains s with
    | false => rfl
    | true => exact absurd ((contains_true_iff l s).mp hcb) h

theorem processNamedItem_stateOk (E : List Item) (st : ParseState) (j : Json)
    (s : String) (h : stateOk E st) :
    stateOk E (processNamedItem E st j s) ∧
      st.seen ⊆ (processNamedItem E st j s).seen := by
  simp only [processNamedItem]
  split
  · exact ⟨h, fun a ha => ha⟩
  · split
    · exact ⟨h, fun a ha => ha⟩
    · rename_i h1 h2
      have hnot : normalize (cleanName s) ∉ st.seen := by
        rw [← contains_true_iff]
        exact h2
      split
      · split
        · exact ⟨stateOk_extend_seen E st _ h, fun a ha => List.mem_cons_of_mem _ ha⟩
        · exact ⟨stateOk_push_update E st _ _ h, fun a ha => List.mem_cons_of_mem _ ha⟩
      · rename_i hfind
        exact ⟨stateOk_push_new E st s _ _ _ _ h hfind hnot,
          fun a ha => List.mem_cons_of_mem _ ha⟩

set_option maxHeartbeats 2000000 in
theorem processJsonItem_stateOk (E : List Item) (st : ParseState) (j : Json)
    (h : stateOk E st) :
    stateOk E (exceptState (processJsonItem E st j)) ∧
      st.seen ⊆ (exceptState (processJsonItem E st j)).seen := by
  cases j with
  | null => exact ⟨h, fun a ha => ha⟩
  | bool v => exact ⟨h, fun a ha => ha⟩
  | num q => exact ⟨h, fun a ha => ha⟩
  | str t => exact ⟨h, fun a ha => ha⟩
  | arr l => exact ⟨h, fun a ha => ha⟩
  | obj ms =>
    simp only [processJsonItem]
    split
    · exact ⟨h, fun a ha => ha⟩
    · cases hn : nameString (memberOf (Json.obj ms) "name") with
      | some s =>
        simp only [exceptState]
        exact processNamedItem_stateOk E st (Json.obj ms) s h
      | none => exact ⟨h, fun a ha => ha⟩

theorem runJsonItems_stateOk (E : List Item) :
    ∀ (items : List Json) (st : ParseState), stateOk E st →
      stateOk E (runJsonItems E items st) ∧
        st.seen ⊆ (runJsonItems E items st).seen := by
  intro items
  induction items with
  | nil => intro st h; exact ⟨h, fun a ha => ha⟩
  | cons j rest ih =>
    intro st h
    simp only [runJsonItems]
    have hstep := processJsonItem_stateOk E st j h
    split
    · rename_i st' hres
      rw [hres] at hstep
      simp only [exceptState] at hstep
      obtain ⟨h1, h2⟩ := ih st' hstep.1
      exact ⟨h1, fun a ha => h2 (hstep.2 ha)⟩
    · rename_i st' hres
      rw [hres] at hstep
      simp only [exceptState] at hstep
      exact hstep

theorem jsonTier_stateOk (response : String) (E : List Item) :
    stateOk E (jsonTier response E) := by
  simp only [jsonTier]
  split
  · exact stateOk_empty E
  · split
    · exact stateOk_empty E
    · split
      · exact stateOk_empty E
      · exact (runJsonItems_stateOk E _ emptyState (stateOk_empty E)).1

theorem processCaps_stateOk (E : List Item) (cls : String) (st : ParseState)
    (caps : RegexCaps) (h : stateOk E st) :
    stateOk E (processCaps E cls st caps) ∧
      st.seen ⊆ (processCaps E cls st caps).seen := by
  simp only [processCaps]
  split
  · exact ⟨h, fun a ha => ha⟩
  · split
    · exact ⟨h, fun a ha => ha⟩
    · split
      · exact ⟨h, fun a ha => ha⟩
      · rename_i h1 h2 h3
        have hnot : normalize (cleanName (String.mk caps.name)) ∉ st.seen := by
          rw [← contains_true_iff]
          exact h2
        split
        · split
          · exact ⟨stateOk_extend_seen E st _ h, fun a ha => List.mem_cons_of_mem _ ha⟩
          · exact ⟨stateOk_push_update E st _ _ h, fun a ha => List.mem_cons_of_mem _ ha⟩
        · rename_i hfind
          exact ⟨stateOk_push_new E st (String.mk caps.name) _ _ _ _ h hfind hnot,
            fun a ha => List.mem_cons_of_mem _ ha⟩

theorem capsFold_stateOk (E : List Item) (cls : String) :
    ∀ (capsList : List RegexCaps) (st : ParseState), stateOk E st →
      stateOk E (capsList.foldl (processCaps E cls) st) ∧
        st.seen ⊆ (capsList.foldl (processCaps E cls) st).seen := by
  intro capsList
  induction capsList with
  | nil => intro st h; exact ⟨h, fun a ha => ha⟩
  | cons caps rest ih =>
    intro st h
    simp only [List.foldl_cons]
    obtain ⟨h1, h2⟩ := processCaps_stateOk E cls st caps h
    obtain ⟨h3, h4⟩ := ih (processCaps E cls st caps) h1
    exact ⟨h3, fun a ha => h4 (h2 ha)⟩

theorem patternFold_stateOk (response : String) (E : List Item) :
    ∀ (pats : List (Char × String × String)) (st : ParseState), stateOk E st →
      stateOk E (pats.foldl
        (fun st pat =>
          (scanMarkers pat.1 pat.2.1.data response.data.length response.data).foldl
            (processCaps E pat.2.2) st) st) := by
  intro pats
  induction pats with
  | nil => intro st h; exact h
  | cons pat rest ih =>
    intro st h
    simp only [List.foldl_cons]
    exact ih _ (capsFold_stateOk E pat.2.2 _ st h).1

theorem fallbackTier_stateOk (response : String) (E : List Item) (st : ParseState)
    (h : stateOk E st) : stateOk E (fallbackTier response E st) :=
  patternFold_stateOk response E fallbackPatterns st h

theorem parseResponse_stateOk (response : String) (E : List Item) :
    ∃ st : ParseState, stateOk E st ∧
      (parseResponse response E).newItems = st.newItems ∧
      (parseResponse response E).updates = st.updates := by
  have h1 := jsonTier_stateOk response E
  simp only [parseResponse]
  split
  · exact ⟨fallbackTier response E (jsonTier response E),
      fallbackTier_stateOk response E _ h1, rfl, rfl⟩
  all_goals exact ⟨jsonTier response E, h1, rfl, rfl⟩

/-! ## Shape lemmas for the structured-tier loop body -/

theorem processNamedItem_skip_len (E : List Item) (st : ParseState) (j : Json)
    (s : String) (hlen : jsLength (cleanName s) < 3) :
    processNamedItem E st j s = st := by
  simp only [processNamedItem]
  rw [if_pos hlen]

theorem processNamedItem_skip_seen (E : List Item) (st : ParseState) (j : Json)
    (s : String) (hlen : ¬ jsLength (cleanName s) < 3)
    (hseen : normalize (cleanName s) ∈ st.seen) :
    processNamedItem E st j s = st := by
  simp only [processNamedItem]
  rw [if_neg hlen, if_pos ((contains_true_iff _ _).mpr hseen)]

theorem processNamedItem_new (E : List Item) (st : ParseState) (j : Json)
    (s : String) (hlen : ¬ jsLength (cleanName s) < 3)
    (hseen : normalize (cleanName s) ∉ st.seen)
    (hfind : findMatchingItem (cleanName s) E = none) :
    processNamedItem E st j s =
      { st with
        seen := normalize (cleanName s) :: st.seen
        newItems := st.newItems ++ [⟨cleanName s, (memberOf j "classification").getD .null,
          jsOrStr (memberOf j "what") "", jsOrStr (memberOf j "why") "",
          jsOrStr (memberOf j "next") ""⟩] } := by
  simp only [processNamedItem]
  rw [if_neg hlen, if_neg (fun hc => hseen ((contains_true_iff _ _).mp hc)), hfind]

theorem processNamedItem_update (E : List Item) (st : ParseState) (j : Json)
    (s : String) (m : Item) (hlen : ¬ jsLength (cleanName s) < 3)
    (hseen : normalize (cleanName s) ∉ st.seen)
    (hfind : findMatchingItem (cleanName s) E = some m)
    (hne : jsStrictEqStr ((memberOf j "classification").getD .null) m.classification = false) :
    processNamedItem E st j s =
      { st with
        seen := normalize (cleanName s) :: st.seen
        updates := st.updates ++ [⟨m.id, (memberOf j "classification").getD .null,
          jsOrStr (memberOf j "what") m.what, jsOrStr (memberOf j "why") m.why,
          jsOrStr (memberOf j "next") m.next_action⟩] } := by
  simp only [processNamedItem]
  rw [if_neg hlen, if_neg (fun hc => hseen ((contains_true_iff _ _).mp hc)), hfind]
  exact if_neg (fun hc => by rw [hne] at hc; cases hc)

theorem processNamedItem_drop (E : List Item) (st : ParseState) (j : Json)
    (s : String) (m : Item) (hlen : ¬ jsLength (cleanName s) < 3)
    (hseen : normalize (cleanName s) ∉ st.seen)
    (hfind : findMatchingItem (cleanName s) E = some m)
    (heq : jsStrictEqStr ((memberOf j "classification").getD .null) m.classification = true) :
    processNamedItem E st j s = { st with seen := normalize (cleanName s) :: st.seen } := by
  simp only [processNamedItem]
  rw [if_neg hlen, if_neg (fun hc => hseen ((contains_true_iff _ _).mp hc)), hfind]
  exact if_pos heq

/-- The structured-tier loop body accepts exactly the elements whose
`name` member is a truthy string and whose `classification` member is
truthy, and on those it runs the filters/reconciliation. -/
theorem processJsonItem_run (E : List Item) (st : ParseState) (j : Json) (s : String)
    (hname : nameString (memberOf j "name") = some s)
    (htn : truthyOpt (memberOf j "name") = true)
    (htc : truthyOpt (memberOf j "classification") = true) :
    processJsonItem E st j = .ok (processNamedItem E st j s) := by
  cases j with
  | null => cases hname
  | bool v => cases hname
  | num q => cases hname
  | str t => cases hname
  | arr l => cases hname
  | obj ms =>
    simp only [processJsonItem]
    rw [if_neg (fun hc => hc ⟨htn, htc⟩), hname]

/-! ## Matching and parsing ignore the `completed` flag

The per-item function below is the congruence used for claim C9: any
name-preserving, output-field-preserving rewrite of the existing items
(such as flipping `completed`) leaves every `parseResponse` output
unchanged. -/

theorem matchStep_map_name (nn : String) (th : ℚ) (f : Item → Item)
    (hf : ∀ e : Item, (f e).name = e.name) (acc : Option Item × ℚ) (e : Item) :
    matchStep nn th (acc.1.map f, acc.2) (f e) =
      ((matchStep nn th acc e).1.map f, (matchStep nn th acc e).2) := by
  simp only [matchStep, hf e]
  by_cases hcond : similarity nn (normalize e.name) > th ∧
      similarity nn (normalize e.name) > acc.2
  · rw [if_pos hcond, if_pos hcond]
    rfl
  · rw [if_neg hcond, if_neg hcond]

theorem findFold_map_name (nn : String) (th : ℚ) (f : Item → Item)
    (hf : ∀ e : Item, (f e).name = e.name) :
    ∀ (E : List Item) (acc : Option Item × ℚ),
      (E.map f).foldl (matchStep nn th) (acc.1.map f, acc.2) =
      ((E.foldl (matchStep nn th) acc).1.map f, (E.foldl (matchStep nn th) acc).2) := by
  intro E
  induction E with
  | nil => intro acc; rfl
  | cons e E' ihE =>
    intro acc
    simp only [List.map_cons, List.foldl_cons]
    rw [matchStep_map_name nn th f hf]
    exact ihE (matchStep nn th acc e)

theorem findMatchingItem_map_name (name : String) (E : List Item) (f : Item → Item)
    (hf : ∀ e : Item, (f e).name = e.name) :
    findMatchingItem name (E.map f) = (findMatchingItem name E).map f := by
  rw [findMatchingItem_eq, findMatchingItem_eq]
  exact congrArg Prod.fst (findFold_map_name (normalize name) (3 / 4) f hf E (none, 0))

/-- Overwrite the lifecycle flag of an item, leaving all other fields. -/
def setCompleted (b : Bool) (i : Item) : Item := { i with completed := b }

theorem processNamedItem_setCompleted (E : List Item) (st : ParseState) (j : Json)
    (s : String) (b : Bool) :
    processNamedItem (E.map (setCompleted b)) st j s = processNamedItem E st j s := by
  simp only [processNamedItem]
  rw [findMatchingItem_map_name (cleanName s) E (setCompleted b) (fun e => rfl)]
  cases hfind : findMatchingItem (cleanName s) E with
  | none => rfl
  | some m => rfl

theorem processJsonItem_setCompleted (E : List Item) (st : ParseState) (j : Json)
    (b : Bool) :
    processJsonItem (E.map (setCompleted b)) st j = processJsonItem E st j := by
  simp only [processJsonItem, processNamedItem_setCompleted]

theorem runJsonItems_setCompleted (E : List Item) (b : Bool) :
    ∀ (items : List Json) (st : ParseState),
      runJsonItems (E.map (setCompleted b)) items st = runJsonItems E items st := by
  intro items
  induction items with
  | nil => intro st; rfl
  | cons j rest ih =>
    intro st
    simp only [runJsonItems, processJsonItem_setCompleted]
    cases hres : processJsonItem E st j with
    | ok st' => exact ih st'
    | error st' => rfl

theorem jsonTier_setCompleted (response : String) (E : List Item) (b : Bool) :
    jsonTier response (E.map (setCompleted b)) = jsonTier response E := by
  simp only [jsonTier, runJsonItems_setCompleted]

theorem processCaps_setCompleted (E : List Item) (cls : String) (st : ParseState)
    (caps : RegexCaps) (b : Bool) :
    processCaps (E.map (setCompleted b)) cls st caps = processCaps E cls st caps := by
  simp only [processCaps]
  rw [findMatchingItem_map_name (cleanName (String.mk caps.name)) E (setCompleted b)
    (fun e => rfl)]
  cases hfind : findMatchingItem (cleanName (String.mk caps.name)) E with
  | none => rfl
  | some m => rfl

theorem fallbackTier_setCompleted (response : String) (E : List Item)
    (st : ParseState) (b : Bool) :
    fallbackTier response (E.map (setCompleted b)) st = fallbackTier response E st := by
  simp only [fallbackTier]
  refine foldl_congruence _ _ ?_ fallbackPatterns st
  intro acc pat
  refine foldl_congruence _ _ ?_ _ acc
  intro acc2 caps
  exact processCaps_setCompleted E pat.2.2 acc2 caps b

theorem parseResponse_setCompleted (response : String) (E : List Item) (b : Bool) :
    parseResponse response (E.map (setCompleted b)) = parseResponse response E := by
  simp only [parseResponse, jsonTier_setCompleted, fallbackTier_setCompleted]

/-! ## Classification invariants of `parseResponse` -/

/-- Every accumulated output classification satisfies `P`. -/
def classOk (P : Json → Prop) (st : ParseState) : Prop :=
  (∀ x ∈ st.newItems, P x.classification) ∧ (∀ u ∈ st.updates, P u.classification)

theorem classOk_empty (P : Json → Prop) : classOk P emptyState :=
  ⟨fun x hx => absurd hx (List.not_mem_nil x), fun u hu => absurd hu (List.not_mem_nil u)⟩

theorem processNamedItem_classOk (P : Json → Prop) (E : List Item) (st : ParseState)
    (j : Json) (s : String) (h : classOk P st)
    (hcls : P ((memberOf j "classification").getD .null)) :
    classOk P (processNamedItem E st j s) := by
  simp only [processNamedItem]
  split
  · exact h
  · split
    · exact h
    · split
      · split
        · exact h
        · refine ⟨h.1, ?_⟩
          intro u hu
          rcases List.mem_append.mp hu with hu | hu
          · exact h.2 u hu
          · rw [List.mem_singleton] at hu
            subst hu
            exact hcls
      · refine ⟨?_, h.2⟩
        intro x hx
        rcases List.mem_append.mp hx with hx | hx
        · exact h.1 x hx
        · rw [List.mem_singleton] at hx
          subst hx
          exact hcls

theorem processJsonItem_classOk (E : List Item) (st : ParseState) (j : Json)
    (h : classOk (fun v => jsTruthy v = true) st) :
    classOk (fun v => jsTruthy v = true) (exceptState (processJsonItem E st j)) := by
  cases j with
  | null => exact h
  | bool v => exact h
  | num q => exact h
  | str t => exact h
  | arr l => exact h
  | obj ms =>
    simp only [processJsonItem]
    split
    · exact h
    · rename_i hguard
      rw [not_not] at hguard
      have hcls : jsTruthy ((memberOf (Json.obj ms) "classification").getD .null) = true := by
        have h2 := hguard.2
        cases hm : memberOf (Json.obj ms) "classification" with
        | none => rw [hm] at h2; cases h2
        | some v =>
          rw [hm] at h2
          exact h2
      cases hn : nameString (memberOf (Json.obj ms) "name") with
      | some s =>
        simp only [exceptState]
        exact processNamedItem_classOk _ E st (Json.obj ms) s h hcls
      | none => exact h

theorem runJsonItems_classOk (E : List Item) :
    ∀ (items : List Json) (st : ParseState),
      classOk (fun v => jsTruthy v = true) st →
      classOk (fun v => jsTruthy v = true) (runJsonItems E items st) := by
  intro items
  induction items with
  | nil => intro st h; exact h
  | cons j rest ih =>
    intro st h
    simp only [runJsonItems]
    have hstep := processJsonItem_classOk E st j h
    split
    · rename_i st' hres
      rw [hres] at hstep
      exact ih st' hstep
    · rename_i st' hres
      rw [hres] at hstep
      exact hstep

theorem jsonTier_classOk (response : String) (E : List Item) :
    classOk (fun v => jsTruthy v = true) (jsonTier response E) := by
  simp only [jsonTier]
  split
  · exact classOk_empty _
  · split
    · exact classOk_empty _
    · split
      · exact classOk_empty _
      · exact runJsonItems_classOk E _ emptyState (classOk_empty _)

theorem processCaps_classOk (P : Json → Prop) (E : List Item) (cls : String)
    (st : ParseState) (caps : RegexCaps) (h : classOk P st)
    (hc : P (Json.str cls)) : classOk P (processCaps E cls st caps) := by
  simp only [processCaps]
  split
  · exact h
  · split
    · exact h
    · split
      · exact h
      · split
        · split
          · exact h
          · refine ⟨h.1, ?_⟩
            intro u hu
            rcases List.mem_append.mp hu with hu | hu
            · exact h.2 u hu
            · rw [List.mem_singleton] at hu
              subst hu
              exact hc
        · refine ⟨?_, h.2⟩
          intro x hx
          rcases List.mem_append.mp hx with hx | hx
          · exact h.1 x hx
          · rw [List.mem_singleton] at hx
            subst hx
            exact hc

theorem capsFold_classOk (P : Json → Prop) (E : List Item) (cls : String)
    (hc : P (Json.str cls)) :
    ∀ (capsList : List RegexCaps) (st : ParseState), classOk P st →
      classOk P (capsList.foldl (processCaps E cls) st) := by
  intro capsList
  induction capsList with
  | nil => intro st h; exact h
  | cons caps rest ih =>
    intro st h
    simp only [List.foldl_cons]
    exact ih _ (processCaps_classOk P E cls st caps h hc)

theorem patternFold_classOk (P : Json → Prop) (response : String) (E : List Item) :
    ∀ (pats : List (Char × String × String)) (st : ParseState), classOk P st →
      (∀ pat ∈ pats, P (Json.str pat.2.2)) →
      classOk P (pats.foldl
        (fun st pat =>
          (scanMarkers pat.1 pat.2.1.data response.data.length response.data).foldl
            (processCaps E pat.2.2) st) st) := by
  intro pats
  induction pats with
  | nil => intro st h _; exact h
  | cons pat rest ih =>
    intro st h hall
    simp only [List.foldl_cons]
    refine ih _ (capsFold_classOk P E pat.2.2 ?_ _ st h) ?_
    · exact hall pat (List.mem_cons_self pat rest)
    · intro p hp
      exact hall p (List.mem_cons_of_mem pat hp)

theorem fallbackTier_classOk (P : Json → Prop) (response : String) (E : List Item)
    (st : ParseState) (h : classOk P st)
    (hS : P (Json.str "SIGNAL")) (hN : P (Json.str "NECESSARY"))
    (hO : P (Json.str "NOISE")) :
    classOk P (fallbackTier response E st) := by
  refine patternFold_classOk P response E fallbackPatterns st h ?_
  intro pat hpat
  simp only [fallbackPatterns, List.mem_cons, List.not_mem_nil, or_false] at hpat
  rcases hpat with h1 | h1 | h1
  · rw [h1]; exact hS
  · rw [h1]; exact hN
  · rw [h1]; exact hO

/-! ## Shape lemmas for the reconciliation loop body (`processCandidate`) -/

theorem processCandidate_skip_len (E : List Item) (st : RecState) (c : Candidate)
    (hlen : jsLength (cleanName c.name) < 3) :
    processCandidate E st c = st := by
  simp only [processCandidate]
  rw [if_pos hlen]

theorem processCandidate_new (E : List Item) (st : RecState) (c : Candidate)
    (hlen : ¬ jsLength (cleanName c.name) < 3)
    (hseen : normalize (cleanName c.name) ∉ st.seen)
    (hfind : findMatchingItem (cleanName c.name) E = none) :
    processCandidate E st c =
      { st with
        seen := normalize (cleanName c.name) :: st.seen
        newItems := st.newItems ++ [⟨cleanName c.name, c.classification,
          c.what, c.why, c.next_action⟩] } := by
  simp only [processCandidate]
  rw [if_neg hlen, if_neg (fun hc => hseen ((contains_true_iff _ _).mp hc)), hfind]

theorem processCandidate_update (E : List Item) (st : RecState) (c : Candidate)
    (m : Item) (hlen : ¬ jsLength (cleanName c.name) < 3)
    (hseen : normalize (cleanName c.name) ∉ st.seen)
    (hfind : findMatchingItem (cleanName c.name) E = some m)
    (hne : (c.classification == m.classification) = false) :
    processCandidate E st c =
      { st with
        seen := normalize (cleanName c.name) :: st.seen
        updates := st.updates ++ [⟨m.id, c.classification, strOr c.what m.what,
          strOr c.why m.why, strOr c.next_action m.next_action⟩] } := by
  simp only [processCandidate]
  rw [if_neg hlen, if_neg (fun hc => hseen ((contains_true_iff _ _).mp hc)), hfind]
  exact if_neg (fun hc => by rw [hne] at hc; cases hc)

theorem processCandidate_drop (E : List Item) (st : RecState) (c : Candidate)
    (m : Item) (hlen : ¬ jsLength (cleanName c.name) < 3)
    (hseen : normalize (cleanName c.name) ∉ st.seen)
    (hfind : findMatchingItem (cleanName c.name) E = some m)
    (heq : (c.classification == m.classification) = true) :
    processCandidate E st c =
      { st with seen := normalize (cleanName c.name) :: st.seen } := by
  simp only [processCandidate]
  rw [if_neg hlen, if_neg (fun hc => hseen ((contains_true_iff _ _).mp hc)), hfind]
  exact if_pos heq

/-- When the fold found nothing above the threshold, the accumulator is
untouched. -/
theorem findFold_none_eq (nn : String) (E : List Item)
    (h : (E.foldl (matchStep nn (3 / 4)) ((none : Option Item), (0 : ℚ))).1 = none) :
    E.foldl (matchStep nn (3 / 4)) ((none : Option Item), (0 : ℚ)) = (none, 0) := by
  obtain ⟨hmono, hres⟩ := findFold_spec nn (3 / 4) E (none, 0) (Or.inl ⟨rfl, rfl⟩)
  rcases hres with ⟨hfst, hsnd, _⟩ | ⟨m, _, hfst, _, _, _⟩
  · exact Prod.ext hfst hsnd
  · rw [h] at hfst
    cases hfst

/-- Appending an item whose normalized name equals the searched name to a
store with no match makes that item the match. -/
theorem findMatchingItem_append_exact (name : String) (E : List Item) (a : Item)
    (hnone : findMatchingItem name E = none)
    (heq : normalize name = normalize a.name) :
    findMatchingItem name (E ++ [a]) = some a := by
  rw [findMatchingItem_eq] at hnone
  rw [findMatchingItem_eq, List.foldl_append, findFold_none_eq _ _ hnone]
  simp only [List.foldl_cons, List.foldl_nil, matchStep]
  rw [← heq, similarity_self]
  rw [if_pos (by norm_num : (1 : ℚ) > 3 / 4 ∧ (1 : ℚ) >
    ((none : Option Item), (0 : ℚ)).2)]

/-- Applying an update record never changes names, so matching commutes
with it. -/
theorem findMatchingItem_applyUpdate (name : String) (E : List Item) (u : UpdateS) :
    findMatchingItem name (applyUpdate E u) =
      (findMatchingItem name E).map (fun e =>
        if e.id = u.id then
          { e with classification := u.classification, what := u.what,
                   why := u.why, next_action := u.next_action }
        else e) := by
  simp only [applyUpdate]
  refine findMatchingItem_map_name name E _ ?_
  intro e
  by_cases h : e.id = u.id
  · rw [if_pos h]
  · rw [if_neg h]

/-! ## Behaviour of the retry loop (`callAnthropic`) -/

theorem callAnthropicF_succ (f : Nat) (status : Nat → Nat) (att : Nat) :
    callAnthropicF (f + 1) status att =
      (if respOk (status att) then ⟨[status att], [], .success⟩
       else if 500 ≤ status att ∧ att ≤ MAX_RETRIES then
         ⟨status att :: (callAnthropicF f status (att + 1)).attempts,
          RETRY_DELAY * att :: (callAnthropicF f status (att + 1)).delays,
          (callAnthropicF f status (att + 1)).result⟩
       else ⟨[status att], [], .failure (status att)⟩) := rfl

theorem respOk_false_of_ge (s : Nat) (h : 500 ≤ s) : respOk s = false := by
  simp only [respOk]
  simp only [Bool.and_eq_false_iff, decide_eq_false_iff_not]
  omega

/-- Immediate success: an ok status on the first attempt means no retry
and no sleep. -/
theorem callAnthropic_ok (status : Nat → Nat) (h : respOk (status 1) = true) :
    callAnthropic status = ⟨[status 1], [], .success⟩ := by
  simp only [callAnthropic]
  rw [callAnthropicF_succ, if_pos h]

/-- A non-ok status below 500 fails immediately: one attempt, no sleep. -/
theorem callAnthropic_client_fail (status : Nat → Nat)
    (h : respOk (status 1) = false) (hlt : status 1 < 500) :
    callAnthropic status = ⟨[status 1], [], .failure (status 1)⟩ := by
  simp only [callAnthropic]
  rw [callAnthropicF_succ, if_neg (by rw [h]; exact Bool.false_ne_true),
    if_neg (fun hc => by omega)]

theorem callAnthropicF_MAX (status : Nat → Nat) (att : Nat) :
    callAnthropicF MAX_RETRIES status att =
      (if respOk (status att) then ⟨[status att], [], .success⟩
       else if 500 ≤ status att ∧ att ≤ MAX_RETRIES then
         ⟨status att :: (callAnthropicF 1 status (att + 1)).attempts,
          RETRY_DELAY * att :: (callAnthropicF 1 status (att + 1)).delays,
          (callAnthropicF 1 status (att + 1)).result⟩
       else ⟨[status att], [], .failure (status att)⟩) := rfl

theorem callAnthropicF_one (status : Nat → Nat) (att : Nat) :
    callAnthropicF 1 status att =
      (if respOk (status att) then ⟨[status att], [], .success⟩
       else if 500 ≤ status att ∧ att ≤ MAX_RETRIES then
         ⟨[status att], [RETRY_DELAY * att], .failure 0⟩
       else ⟨[status att], [], .failure (status att)⟩) := rfl

/-- A 5xx on attempt 1 followed by an ok status: exactly one retry, after
sleeping `RETRY_DELAY * 1`. -/
theorem callAnthropic_retry_ok (status : Nat → Nat)
    (h1 : 500 ≤ status 1) (h2 : respOk (status 2) = true) :
    callAnthropic status = ⟨[status 1, status 2], [1000], .success⟩ := by
  have h2' : respOk (status (1 + 1)) = true := h2
  simp only [callAnthropic]
  rw [callAnthropicF_succ,
    if_neg (by rw [respOk_false_of_ge _ h1]; exact Bool.false_ne_true),
    if_pos ⟨h1, by decide⟩]
  rw [callAnthropicF_MAX, if_pos h2']
  rfl

/-- Two 5xx statuses then an ok third attempt: two retries, with the
increasing delays 1000 and 2000. -/
theorem callAnthropic_retry2_ok (status : Nat → Nat)
    (h1 : 500 ≤ status 1) (h2 : 500 ≤ status 2) (h3 : respOk (status 3) = true) :
    callAnthropic status = ⟨[status 1, status 2, status 3], [1000, 2000], .success⟩ := by
  have h2' : 500 ≤ status (1 + 1) := h2
  have h3' : respOk (status (1 + 1 + 1)) = true := h3
  simp only [callAnthropic]
  rw [callAnthropicF_succ,
    if_neg (by rw [respOk_false_of_ge _ h1]; exact Bool.false_ne_true),
    if_pos ⟨h1, by decide⟩]
  rw [callAnthropicF_MAX,
    if_neg (by rw [respOk_false_of_ge _ h2']; exact Bool.false_ne_true),
    if_pos ⟨h2', by decide⟩]
  rw [callAnthropicF_one, if_pos h3']
  rfl

/-- Two 5xx statuses then a non-ok third attempt: the retries are
exhausted and the call throws, whatever the third status is. -/
theorem callAnthropic_exhaust (status : Nat → Nat)
    (h1 : 500 ≤ status 1) (h2 : 500 ≤ status 2) (h3 : respOk (status 3) = false) :
    callAnthropic status =
      ⟨[status 1, status 2, status 3], [1000, 2000], .failure (status 3)⟩ := by
  have h2' : 500 ≤ status (1 + 1) := h2
  have h3' : respOk (status (1 + 1 + 1)) = false := h3
  simp only [callAnthropic]
  rw [callAnthropicF_succ,
    if_neg (by rw [respOk_false_of_ge _ h1]; exact Bool.false_ne_true),
    if_pos ⟨h1, by decide⟩]
  rw [callAnthropicF_MAX,
    if_neg (by rw [respOk_false_of_ge _ h2']; exact Bool.false_ne_true),
    if_pos ⟨h2', by decide⟩]
  rw [callAnthropicF_one,
    if_neg (by rw [h3']; exact Bool.false_ne_true),
    if_neg (fun hc => absurd hc.2 (by decide))]
  rfl

/-- A 5xx then a non-ok status below 500: the second failure is final. -/
theorem callAnthropic_retry_client_fail (status : Nat → Nat)
    (h1 : 500 ≤ status 1) (h2 : respOk (status 2) = false) (hlt : status 2 < 500) :
    callAnthropic status = ⟨[status 1, status 2], [1000], .failure (status 2)⟩ := by
  have h2' : respOk (status (1 + 1)) = false := h2
  have hlt' : status (1 + 1) < 500 := hlt
  simp only [callAnthropic]
  rw [callAnthropicF_succ,
    if_neg (by rw [respOk_false_of_ge _ h1]; exact Bool.false_ne_true),
    if_pos ⟨h1, by decide⟩]
  rw [callAnthropicF_MAX,
    if_neg (by rw [h2']; exact Bool.false_ne_true),
    if_neg (fun hc => absurd hc.1 (Nat.not_le.mpr hlt'))]
  rfl

/-- At most `fuel` fetches are issued. -/
theorem callAnthropicF_attempts_le (status : Nat → Nat) :
    ∀ (f : Nat) (att : Nat), (callAnthropicF f status att).attempts.length ≤ f := by
  intro f
  induction f with
  | zero =>
    intro att
    exact Nat.le_refl 0
  | succ f ih =>
    intro att
    rw [callAnthropicF_succ]
    split
    · exact Nat.succ_le_succ (Nat.zero_le f)
    · split
      · exact Nat.succ_le_succ (ih (att + 1))
      · exact Nat.succ_le_succ (Nat.zero_le f)

/-- The sleeps before successive retries are strictly increasing, and are
at least `RETRY_DELAY * att`. -/
theorem callAnthropicF_delays_chain (status : Nat → Nat) :
    ∀ (f : Nat) (att : Nat),
      List.Chain' (· < ·) (callAnthropicF f status att).delays ∧
      ∀ d ∈ (callAnthropicF f status att).delays, RETRY_DELAY * att ≤ d := by
  intro f
  induction f with
  | zero =>
    intro att
    exact ⟨List.chain'_nil, fun d hd => absurd hd (List.not_mem_nil d)⟩
  | succ f ih =>
    intro att
    rw [callAnthropicF_succ]
    split
    · exact ⟨List.chain'_nil, fun d hd => absurd hd (List.not_mem_nil d)⟩
    · split
      · obtain ⟨hchain, hbound⟩ := ih (att + 1)
        have hstep : RETRY_DELAY * att < RETRY_DELAY * (att + 1) := by
          simp only [RETRY_DELAY]
          omega
        refine ⟨List.chain'_cons'.mpr ⟨?_, hchain⟩, ?_⟩
        · intro b hb
          exact lt_of_lt_of_le hstep (hbound b (List.mem_of_mem_head? hb))
        · intro d hd
          rcases List.mem_cons.mp hd with h | h
          · rw [h]
          · exact le_trans (le_of_lt hstep) (hbound d h)
      · exact ⟨List.chain'_nil, fun d hd => absurd hd (List.not_mem_nil d)⟩

/-! ## Single-candidate idempotence of reconciliation (claim C7, amended) -/

theorem reconcile_single (c : Candidate) (E0 : List Item) :
    reconcile [c] E0 = processCandidate E0 ⟨[], [], []⟩ c := by
  simp only [reconcile, List.foldl_cons, List.foldl_nil]

theorem reconcile_single_skip (c : Candidate)
    (hlen : jsLength (cleanName c.name) < 3) (E0 : List Item) :
    reconcile [c] E0 = ⟨[], [], []⟩ := by
  rw [reconcile_single]
  exact processCandidate_skip_len E0 ⟨[], [], []⟩ c hlen

theorem reconcile_single_idem (c : Candidate) (E : List Item) (fid : Nat) :
    (reconcile [c]
      (applyUpdates (E ++ (reconcile [c] E).newItems.map (itemOfNew fid))
        (reconcile [c] E).updates)).newItems = [] ∧
    (reconcile [c]
      (applyUpdates (E ++ (reconcile [c] E).newItems.map (itemOfNew fid))
        (reconcile [c] E).updates)).updates = [] := by
  by_cases hlen : jsLength (cleanName c.name) < 3
  · rw [reconcile_single_skip c hlen]
    exact ⟨rfl, rfl⟩
  · cases hfind : findMatchingItem (cleanName c.name) E with
    | none =>
      have h1 : reconcile [c] E =
          ⟨[⟨cleanName c.name, c.classification, c.what, c.why, c.next_action⟩], [],
            [normalize (cleanName c.name)]⟩ := by
        rw [reconcile_single]
        exact (processCandidate_new E ⟨[], [], []⟩ c hlen (List.not_mem_nil _)
          hfind).trans rfl
      have hE' : applyUpdates (E ++ (reconcile [c] E).newItems.map (itemOfNew fid))
          (reconcile [c] E).updates =
          E ++ [itemOfNew fid
            ⟨cleanName c.name, c.classification, c.what, c.why, c.next_action⟩] := by
        rw [h1]
        simp only [List.map_cons, List.map_nil, applyUpdates, List.foldl_nil]
      rw [hE']
      have hfind2 : findMatchingItem (cleanName c.name)
          (E ++ [itemOfNew fid
            ⟨cleanName c.name, c.classification, c.what, c.why, c.next_action⟩]) =
          some (itemOfNew fid
            ⟨cleanName c.name, c.classification, c.what, c.why, c.next_action⟩) :=
        findMatchingItem_append_exact _ E _ hfind rfl
      have h2 : reconcile [c]
          (E ++ [itemOfNew fid
            ⟨cleanName c.name, c.classification, c.what, c.why, c.next_action⟩]) =
          ⟨[], [], [normalize (cleanName c.name)]⟩ := by
        rw [reconcile_single]
        exact (processCandidate_drop _ ⟨[], [], []⟩ c _ hlen (List.not_mem_nil _)
          hfind2 (beq_self_eq_true c.classification)).trans rfl
      rw [h2]
      exact ⟨rfl, rfl⟩
    | some m =>
      by_cases hcls : (c.classification == m.classification) = true
      · have h1 : reconcile [c] E = ⟨[], [], [normalize (cleanName c.name)]⟩ := by
          rw [reconcile_single]
          exact (processCandidate_drop E ⟨[], [], []⟩ c m hlen (List.not_mem_nil _)
            hfind hcls).trans rfl
        have hE' : applyUpdates (E ++ (reconcile [c] E).newItems.map (itemOfNew fid))
            (reconcile [c] E).updates = E ++ [] := by
          rw [h1]
          simp only [List.map_nil, applyUpdates, List.foldl_nil]
        rw [hE', List.append_nil, h1]
        exact ⟨rfl, rfl⟩
      · have hclsf : (c.classification == m.classification) = false := by
          cases hh : c.classification == m.classification
          · rfl
          · exact absurd hh hcls
        have h1 : reconcile [c] E =
            ⟨[], [⟨m.id, c.classification, strOr c.what m.what, strOr c.why m.why,
              strOr c.next_action m.next_action⟩], [normalize (cleanName c.name)]⟩ := by
          rw [reconcile_single]
          exact (processCandidate_update E ⟨[], [], []⟩ c m hlen (List.not_mem_nil _)
            hfind hclsf).trans rfl
        have hE' : applyUpdates (E ++ (reconcile [c] E).newItems.map (itemOfNew fid))
            (reconcile [c] E).updates =
            applyUpdate (E ++ []) ⟨m.id, c.classification, strOr c.what m.what,
              strOr c.why m.why, strOr c.next_action m.next_action⟩ := by
          rw [h1]
          simp only [List.map_nil, applyUpdates, List.foldl_cons, List.foldl_nil]
        rw [hE', List.append_nil]
        have hfm : (if m.id = (⟨m.id, c.classification, strOr c.what m.what,
              strOr c.why m.why, strOr c.next_action m.next_action⟩ : UpdateS).id then
              ({ m with
                classification := c.classification
                what := strOr c.what m.what
                why := strOr c.why m.why
                next_action := strOr c.next_action m.next_action } : Item)
            else m) =
            { m with
              classification := c.classification
              what := strOr c.what m.what
              why := strOr c.why m.why
              next_action := strOr c.next_action m.next_action } := if_pos rfl
        have hfind2 : findMatchingItem (cleanName c.name)
            (applyUpdate E ⟨m.id, c.classification, strOr c.what m.what,
              strOr c.why m.why, strOr c.next_action m.next_action⟩) =
            some ({ m with
              classification := c.classification
              what := strOr c.what m.what
              why := strOr c.why m.why
              next_action := strOr c.next_action m.next_action } : Item) := by
          rw [findMatchingItem_applyUpdate, hfind]
          exact congrArg some hfm
        have h2 : reconcile [c]
            (applyUpdate E ⟨m.id, c.classification, strOr c.what m.what,
              strOr c.why m.why, strOr c.next_action m.next_action⟩) =
            ⟨[], [], [normalize (cleanName c.name)]⟩ := by
          rw [reconcile_single]
          exact (processCandidate_drop _ ⟨[], [], []⟩ c _ hlen (List.not_mem_nil _)
            hfind2 (beq_self_eq_true c.classification)).trans rfl
        rw [h2]
        exact ⟨rfl, rfl⟩

/-! ## Tier gating of `parseResponse` -/

theorem classOk_of_empty (P : Json → Prop) (st : ParseState)
    (h1 : st.newItems = []) (h2 : st.updates = []) : classOk P st := by
  constructor
  · rw [h1]
    exact fun x hx => absurd hx (List.not_mem_nil x)
  · rw [h2]
    exact fun u hu => absurd hu (List.not_mem_nil u)

/-- A fenced block whose contents fail to parse leaves the structured
tier empty (the exception is caught and only logged). -/
theorem jsonTier_badJson (response : String) (E : List Item) (content : List Char)
    (hex : extractFenced response = some content)
    (hbad : jsonParse (String.mk content) = none) :
    jsonTier response E = emptyState := by
  simp only [jsonTier, hex, hbad]

/-- When the structured tier produced no output, `parseResponse` returns
the fallback tier's output (run on top of the structured tier's state). -/
theorem parseResponse_fallback_eq (response : String) (E : List Item)
    (h1 : (jsonTier response E).newItems = [])
    (h2 : (jsonTier response E).updates = []) :
    parseResponse response E =
      ⟨(fallbackTier response E (jsonTier response E)).newItems,
       (fallbackTier response E (jsonTier response E)).updates⟩ := by
  simp only [parseResponse]
  rw [h1, h2]

/-- When the structured tier produced output, `parseResponse` returns
exactly that output and the fallback tier contributes nothing. -/
theorem parseResponse_tier1_eq (response : String) (E : List Item)
    (h : (jsonTier response E).newItems ≠ [] ∨ (jsonTier response E).updates ≠ []) :
    parseResponse response E =
      ⟨(jsonTier response E).newItems, (jsonTier response E).updates⟩ := by
  simp only [parseResponse]
  cases hn : (jsonTier response E).newItems with
  | nil =>
    cases hu : (jsonTier response E).updates with
    | nil =>
      rcases h with h | h
      · exact absurd hn h
      · exact absurd hu h
    | cons u us => rfl
  | cons x xs => rfl

/-- Every classification that `parseResponse` emits is truthy. -/
theorem parseResponse_classOk_ex (response : String) (E : List Item) :
    ∃ st : ParseState, classOk (fun v => jsTruthy v = true) st ∧
      (parseResponse response E).newItems = st.newItems ∧
      (parseResponse response E).updates = st.updates := by
  have h1 := jsonTier_classOk response E
  simp only [parseResponse]
  split
  · exact ⟨fallbackTier response E (jsonTier response E),
      fallbackTier_classOk _ response E _ h1 (by decide) (by decide) (by decide),
      rfl, rfl⟩
  all_goals exact ⟨jsonTier response E, h1, rfl, rfl⟩

/-! ## The claims -/

/-- C1: a candidate that survives the cleaning/length/in-response-dedup
filters yields exactly one of three outcomes: no item above the 0.75
threshold emits a new item; a best match with a different stored
classification emits exactly one update carrying the match's id, the
candidate's classification, and candidate fields with fallback to the
match's; an identical classification produces no output.  The existing
item `\x7bReview budget, NECESSARY\x7d` with candidate
`\x7bReview the budget, SIGNAL\x7d` produces an update with
classification SIGNAL, not a new item. -/
theorem claim1_reconcile_trichotomy (c : Candidate) (E : List Item) (st : RecState)
    (hlen : ¬ jsLength (cleanName c.name) < 3)
    (hseen : normalize (cleanName c.name) ∉ st.seen) :
    (findMatchingItem (cleanName c.name) E = none ↔
      ∀ e ∈ E, similarity (normalize (cleanName c.name)) (normalize e.name) ≤ 3 / 4) ∧
    (findMatchingItem (cleanName c.name) E = none →
      processCandidate E st c =
        { st with
          seen := normalize (cleanName c.name) :: st.seen
          newItems := st.newItems ++ [⟨cleanName c.name, c.classification, c.what,
            c.why, c.next_action⟩] }) ∧
    (∀ m : Item, findMatchingItem (cleanName c.name) E = some m →
      (c.classification == m.classification) = false →
      processCandidate E st c =
        { st with
          seen := normalize (cleanName c.name) :: st.seen
          updates := st.updates ++ [⟨m.id, c.classification, strOr c.what m.what,
            strOr c.why m.why, strOr c.next_action m.next_action⟩] }) ∧
    (∀ m : Item, findMatchingItem (cleanName c.name) E = some m →
      (c.classification == m.classification) = true →
      processCandidate E st c =
        { st with seen := normalize (cleanName c.name) :: st.seen }) ∧
    reconcile [⟨"Review the budget", "SIGNAL", "", "", ""⟩]
        [⟨7, "Review budget", "NECESSARY", "", "", "", false⟩] =
      ⟨[], [⟨7, "SIGNAL", "", "", ""⟩], ["review the budget"]⟩ := by
  refine ⟨findMatchingItem_none_iff _ E, ?_, ?_, ?_, ?_⟩
  · intro h
    exact processCandidate_new E st c hlen hseen h
  · intro m h hne
    exact processCandidate_update E st c m hlen hseen h hne
  · intro m h heq
    exact processCandidate_drop E st c m hlen hseen h heq
  · with_unfolding_all decide

theorem claim1_witness :
    reconcile [⟨"Review the budget", "SIGNAL", "", "", ""⟩]
        [⟨7, "Review budget", "NECESSARY", "", "", "", false⟩] =
      ⟨[], [⟨7, "SIGNAL", "", "", ""⟩], ["review the budget"]⟩ :=
  (claim1_reconcile_trichotomy ⟨"Review the budget", "SIGNAL", "", "", ""⟩ []
    ⟨[], [], []⟩ (by decide) (List.not_mem_nil _)).2.2.2.2

/-- C2: no new item emitted by `parseResponse` has a normalized name equal
to that of a supplied existing item, no two emitted new items have equal
normalized names, and a candidate whose normalized name equals an existing
item's always finds a match (similarity 1 > threshold). -/
theorem claim2_no_duplicate_new_items (response : String) (E : List Item) :
    (∀ x ∈ (parseResponse response E).newItems, ∀ e ∈ E,
      normalize x.name ≠ normalize e.name) ∧
    ((parseResponse response E).newItems.map (fun x => normalize x.name)).Nodup ∧
    (∀ (name : String) (e : Item), e ∈ E → normalize name = normalize e.name →
      findMatchingItem name E ≠ none) := by
  obtain ⟨st, hok, hn, _⟩ := parseResponse_stateOk response E
  refine ⟨?_, ?_, ?_⟩
  · intro x hx e he
    rw [hn] at hx
    exact ((hok.1 x hx).1 e he)
  · rw [hn]
    exact hok.2
  · intro name e he heq
    exact findMatchingItem_ne_none_of_eq he heq

theorem claim2_witness :
    ((parseResponse "x" []).newItems.map (fun x => normalize x.name)).Nodup :=
  (claim2_no_duplicate_new_items "x" []).2.1

/-- C3: a fenced block with malformed JSON never throws: `parseResponse`
falls through to the regex fallback tier; the concrete response with an
invalid fenced block plus a 🟢 SIGNAL line yields exactly one SIGNAL
candidate named "Ship release". -/
theorem claim3_malformed_falls_back (response : String) (E : List Item)
    (content : List Char)
    (hex : extractFenced response = some content)
    (hbad : jsonParse (String.mk content) = none) :
    parseResponse response E =
      ⟨(fallbackTier response E emptyState).newItems,
       (fallbackTier response E emptyState).updates⟩ ∧
    parseResponse "```json\n\x7b\"items\": [\x7d\n```\n🟢 SIGNAL: Ship release | WHAT: Deploy v2 | WHY: Blocks launch | NEXT: Merge PR" [] =
      ⟨[⟨"Ship release", .str "SIGNAL", .str "Deploy v2", .str "Blocks launch",
        .str "Merge PR"⟩], []⟩ := by
  constructor
  · have hjt := jsonTier_badJson response E content hex hbad
    simp only [parseResponse, hjt, emptyState]
  · with_unfolding_all rfl

theorem claim3_witness :
    parseResponse "```json\n\x7b\"items\": [\x7d\n```\n🟢 SIGNAL: Ship release | WHAT: Deploy v2 | WHY: Blocks launch | NEXT: Merge PR" [] =
      ⟨[⟨"Ship release", .str "SIGNAL", .str "Deploy v2", .str "Blocks launch",
        .str "Merge PR"⟩], []⟩ :=
  (claim3_malformed_falls_back "```json\n\x7b\"items\": [\x7d\n```\n🟢 SIGNAL: Ship release | WHAT: Deploy v2 | WHY: Blocks launch | NEXT: Merge PR"
    [] "\x7b\"items\": [\x7d".data (by with_unfolding_all rfl)
    (by with_unfolding_all rfl)).2

/-- C4: `similarity` is `1 - levenshtein(normalize a, normalize b) /
max(len, len)` with the empty/empty case 1; `levenshtein` is the minimum
number of single-character insertions, deletions and substitutions; the
score lies in [0, 1]. -/
theorem claim4_similarity_contract (a b : String) :
    similarity a b =
      (if max (normalize a).length (normalize b).length = 0 then 1
       else 1 - (levenshtein (normalize a).data (normalize b).data : ℚ) /
         ((max (normalize a).length (normalize b).length : Nat) : ℚ)) ∧
    IsLeast {n | CanTransform (normalize a).data (normalize b).data n}
      (levenshtein (normalize a).data (normalize b).data) ∧
    0 ≤ similarity a b ∧ similarity a b ≤ 1 ∧
    (normalize a = "" → normalize b = "" → similarity a b = 1) := by
  refine ⟨similarity_formula a b, levenshtein_isLeast _ _, similarity_nonneg a b,
    similarity_le_one a b, ?_⟩
  intro h1 h2
  rw [similarity_formula, h1, h2]
  rfl

theorem claim4_witness : similarity "" "" = 1 :=
  (claim4_similarity_contract "" "").2.2.2.2 rfl rfl

/-- C5 (counterexample): the structured tier does not validate the
classification against the three-value enum — a fenced block carrying
classification "URGENT" flows straight through to `newItems`. -/
theorem claim5_cex :
    (parseResponse "```json\n\x7b\"items\":[\x7b\"name\":\"Ship the release\",\"classification\":\"URGENT\"\x7d]\x7d\n```"
      []).newItems =
      [⟨"Ship the release", .str "URGENT", .str "", .str "", .str ""⟩] ∧
    Json.str "URGENT" ≠ .str "SIGNAL" ∧ Json.str "URGENT" ≠ .str "NECESSARY" ∧
    Json.str "URGENT" ≠ .str "NOISE" := by
  refine ⟨?_, fun h => ?_, fun h => ?_, fun h => ?_⟩
  · with_unfolding_all rfl
  all_goals (injection h with h2; exact absurd h2 (by decide))

/-- C5 (amended): every classification `parseResponse` emits is truthy
(the only check the structured tier performs), and the three-value
restriction does hold for output produced by the fallback tier. -/
theorem claim5_truthy_classifications (response : String) (E : List Item) :
    (∀ x ∈ (parseResponse response E).newItems, jsTruthy x.classification = true) ∧
    (∀ u ∈ (parseResponse response E).updates, jsTruthy u.classification = true) ∧
    ((jsonTier response E).newItems = [] → (jsonTier response E).updates = [] →
      (∀ x ∈ (parseResponse response E).newItems,
        x.classification = .str "SIGNAL" ∨ x.classification = .str "NECESSARY" ∨
          x.classification = .str "NOISE") ∧
      (∀ u ∈ (parseResponse response E).updates,
        u.classification = .str "SIGNAL" ∨ u.classification = .str "NECESSARY" ∨
          u.classification = .str "NOISE")) := by
  obtain ⟨st, hok, hn, hu⟩ := parseResponse_classOk_ex response E
  refine ⟨?_, ?_, ?_⟩
  · intro x hx
    rw [hn] at hx
    exact hok.1 x hx
  · intro u hu2
    rw [hu] at hu2
    exact hok.2 u hu2
  · intro h1 h2
    have hfb := fallbackTier_classOk
      (fun v => v = .str "SIGNAL" ∨ v = .str "NECESSARY" ∨ v = .str "NOISE")
      response E (jsonTier response E) (classOk_of_empty _ _ h1 h2)
      (Or.inl rfl) (Or.inr (Or.inl rfl)) (Or.inr (Or.inr rfl))
    rw [parseResponse_fallback_eq response E h1 h2]
    exact ⟨hfb.1, hfb.2⟩

theorem claim5_witness :
    jsTruthy ((⟨"Ship release", .str "SIGNAL", .str "Deploy v2", .str "Blocks launch",
      .str "Merge PR"⟩ : NewItem).classification) = true := by
  have h := (claim5_truthy_classifications
    "```json\n\x7b\"items\": [\x7d\n```\n🟢 SIGNAL: Ship release | WHAT: Deploy v2 | WHY: Blocks launch | NEXT: Merge PR"
    []).1
  refine h _ ?_
  rw [show (parseResponse "```json\n\x7b\"items\": [\x7d\n```\n🟢 SIGNAL: Ship release | WHAT: Deploy v2 | WHY: Blocks launch | NEXT: Merge PR"
    []).newItems =
    [⟨"Ship release", .str "SIGNAL", .str "Deploy v2", .str "Blocks launch",
      .str "Merge PR"⟩] from by with_unfolding_all rfl]
  exact List.mem_singleton.mpr rfl

/-- The C6 counterexample scenario: the fenced block yields one candidate
that is silently dropped (it matches an existing item with identical
classification), and the same response carries a marker-glyph task line. -/
def c6resp : String :=
  "```json\n\x7b\"items\":[\x7b\"name\":\"Review budget\",\"classification\":\"NECESSARY\"\x7d]\x7d\n```\n🟢 SIGNAL: Ship release"

def c6store : List Item := [⟨3, "Review budget", "NECESSARY", "", "", "", false⟩]

/-- C6 (counterexample): the structured tier processed a candidate (its
normalized name was recorded in the dedup set), yet the marker-glyph line
elsewhere in the response still contributes a new item, because the
fallback gate tests emptiness of the output arrays, not whether tier 1
yielded candidates. -/
theorem claim6_cex :
    (jsonTier c6resp c6store).seen = ["review budget"] ∧
    (jsonTier c6resp c6store).newItems = [] ∧
    (jsonTier c6resp c6store).updates = [] ∧
    parseResponse c6resp c6store =
      ⟨[⟨"Ship release", .str "SIGNAL", .str "", .str "", .str ""⟩], []⟩ := by
  refine ⟨?_, ?_, ?_, ?_⟩ <;> (set_option maxRecDepth 10000 in with_unfolding_all rfl)

/-- C6 (amended): the fallback tier contributes exactly when the
structured tier's output arrays are both empty; whenever the structured
tier emitted at least one new item or update, `parseResponse` returns
precisely the structured tier's output and the marker lines contribute
nothing. -/
theorem claim6_fallback_gate (response : String) (E : List Item) :
    ((jsonTier response E).newItems = [] → (jsonTier response E).updates = [] →
      parseResponse response E =
        ⟨(fallbackTier response E (jsonTier response E)).newItems,
         (fallbackTier response E (jsonTier response E)).updates⟩) ∧
    ((jsonTier response E).newItems ≠ [] ∨ (jsonTier response E).updates ≠ [] →
      parseResponse response E =
        ⟨(jsonTier response E).newItems, (jsonTier response E).updates⟩) :=
  ⟨parseResponse_fallback_eq response E, parseResponse_tier1_eq response E⟩

theorem claim6_witness :
    parseResponse c6resp c6store =
      ⟨(fallbackTier c6resp c6store (jsonTier c6resp c6store)).newItems,
       (fallbackTier c6resp c6store (jsonTier c6resp c6store)).updates⟩ :=
  (claim6_fallback_gate c6resp c6store).1 (by with_unfolding_all rfl)
    (by with_unfolding_all rfl)

/-- The C7 counterexample scenario: two candidates that both match the
same stored item. -/
def c7c1 : Candidate := ⟨"Review the budget", "SIGNAL", "", "", ""⟩
def c7c2 : Candidate := ⟨"Review budget", "NECESSARY", "", "", ""⟩
def c7store : List Item := [⟨1, "Review budget", "NECESSARY", "", "", "", false⟩]

/-- C7 (counterexample): reconciliation is not idempotent on candidate
sets.  The first pass updates the stored item to SIGNAL (candidate 1) and
silently drops candidate 2 (identical classification); re-running the
same candidates against the updated store emits a fresh update flipping
the item back to NECESSARY. -/
theorem claim7_cex :
    (reconcile [c7c1, c7c2] c7store).newItems = [] ∧
    (reconcile [c7c1, c7c2] c7store).updates = [⟨1, "SIGNAL", "", "", ""⟩] ∧
    ¬ ((reconcile [c7c1, c7c2]
        (applyUpdates (c7store ++
            (reconcile [c7c1, c7c2] c7store).newItems.map (itemOfNew 2))
          (reconcile [c7c1, c7c2] c7store).updates)).newItems = [] ∧
       (reconcile [c7c1, c7c2]
        (applyUpdates (c7store ++
            (reconcile [c7c1, c7c2] c7store).newItems.map (itemOfNew 2))
          (reconcile [c7c1, c7c2] c7store).updates)).updates = []) := by
  with_unfolding_all decide

/-- C7 (amended): reconciliation of a single candidate is idempotent:
after persisting the first pass's emitted new item (with a fresh id) and
applying its update, re-running the same candidate yields no output. -/
theorem claim7_single_idempotent (c : Candidate) (E : List Item) (fid : Nat) :
    (reconcile [c]
      (applyUpdates (E ++ (reconcile [c] E).newItems.map (itemOfNew fid))
        (reconcile [c] E).updates)).newItems = [] ∧
    (reconcile [c]
      (applyUpdates (E ++ (reconcile [c] E).newItems.map (itemOfNew fid))
        (reconcile [c] E).updates)).updates = [] :=
  reconcile_single_idem c E fid

theorem claim7_witness :
    (reconcile [⟨"Ship release", "SIGNAL", "", "", ""⟩]
      (applyUpdates ([] ++
          (reconcile [⟨"Ship release", "SIGNAL", "", "", ""⟩] []).newItems.map
            (itemOfNew 0))
        (reconcile [⟨"Ship release", "SIGNAL", "", "", ""⟩] []).updates)).newItems
      = [] ∧
    (reconcile [⟨"Ship release", "SIGNAL", "", "", ""⟩]
      (applyUpdates ([] ++
          (reconcile [⟨"Ship release", "SIGNAL", "", "", ""⟩] []).newItems.map
            (itemOfNew 0))
        (reconcile [⟨"Ship release", "SIGNAL", "", "", ""⟩] []).updates)).updates
      = [] :=
  claim7_single_idempotent ⟨"Ship release", "SIGNAL", "", "", ""⟩ [] 0

/-- C8: the completion call retries only on status ≥ 500, at most
MAX_RETRIES (2) extra attempts, sleeping `RETRY_DELAY * attempt` (strictly
increasing) before each retry, and throws after exhausting the retries;
any non-ok status below 500 throws immediately with no retry; an empty
completion body on a successful call is surfaced as an error. -/
theorem claim8_retry_policy (status : Nat → Nat) (text : String) :
    (respOk (status 1) = true → callAnthropic status = ⟨[status 1], [], .success⟩) ∧
    (respOk (status 1) = false → status 1 < 500 →
      callAnthropic status = ⟨[status 1], [], .failure (status 1)⟩) ∧
    (500 ≤ status 1 → respOk (status 2) = true →
      callAnthropic status = ⟨[status 1, status 2], [RETRY_DELAY * 1], .success⟩) ∧
    (500 ≤ status 1 → respOk (status 2) = false → status 2 < 500 →
      callAnthropic status =
        ⟨[status 1, status 2], [RETRY_DELAY * 1], .failure (status 2)⟩) ∧
    (500 ≤ status 1 → 500 ≤ status 2 → respOk (status 3) = true →
      callAnthropic status =
        ⟨[status 1, status 2, status 3], [RETRY_DELAY * 1, RETRY_DELAY * 2],
          .success⟩) ∧
    (500 ≤ status 1 → 500 ≤ status 2 → respOk (status 3) = false →
      callAnthropic status =
        ⟨[status 1, status 2, status 3], [RETRY_DELAY * 1, RETRY_DELAY * 2],
          .failure (status 3)⟩) ∧
    (callAnthropic status).attempts.length ≤ MAX_RETRIES + 1 ∧
    List.Chain' (· < ·) (callAnthropic status).delays ∧
    ((callAnthropic status).result = .success → text = "" →
      handlerResult status text = .error "Empty response from AI") := by
  refine ⟨callAnthropic_ok status, callAnthropic_client_fail status,
    callAnthropic_retry_ok status, callAnthropic_retry_client_fail status,
    callAnthropic_retry2_ok status, callAnthropic_exhaust status,
    callAnthropicF_attempts_le status (MAX_RETRIES + 1) 1,
    (callAnthropicF_delays_chain status (MAX_RETRIES + 1) 1).1, ?_⟩
  intro hs ht
  subst ht
  simp only [handlerResult]
  rw [hs]
  rfl

theorem claim8_witness :
    callAnthropic (fun n => if n = 1 then 503 else if n = 2 then 502 else 200) =
      ⟨[503, 502, 200], [1000, 2000], .success⟩ := by
  have h := (claim8_retry_policy
    (fun n => if n = 1 then 503 else if n = 2 then 502 else 200) "").2.2.2.2.1
    (by decide) (by decide) (by decide)
  exact h.trans (by decide)

/-- C9: `analyzeWithAI` hands the full, unfiltered item list to
`parseResponse`, so matching also runs against completed items; flipping
every `completed` flag never changes the parser's output, and a candidate
whose best match is a (completed) stored item is silently dropped when the
classifications agree and emitted as an update to that item's id when they
differ. -/
theorem claim9_completed_items_matched (response : String) (E : List Item) (b : Bool)
    (c : Candidate) (st : RecState) (m : Item)
    (hlen : ¬ jsLength (cleanName c.name) < 3)
    (hseen : normalize (cleanName c.name) ∉ st.seen)
    (hfind : findMatchingItem (cleanName c.name) E = some m)
    (hcompleted : m.completed = true) :
    analyzeItems response E false = parseResponse response E ∧
    parseResponse response (E.map (setCompleted b)) = parseResponse response E ∧
    ((c.classification == m.classification) = true →
      processCandidate E st c =
        { st with seen := normalize (cleanName c.name) :: st.seen }) ∧
    ((c.classification == m.classification) = false →
      processCandidate E st c =
        { st with
          seen := normalize (cleanName c.name) :: st.seen
          updates := st.updates ++ [⟨m.id, c.classification, strOr c.what m.what,
            strOr c.why m.why, strOr c.next_action m.next_action⟩] }) := by
  refine ⟨rfl, parseResponse_setCompleted response E b, ?_, ?_⟩
  · intro heq
    exact processCandidate_drop E st c m hlen hseen hfind heq
  · intro hne
    exact processCandidate_update E st c m hlen hseen hfind hne

theorem claim9_witness :
    processCandidate [⟨3, "Review budget", "NECESSARY", "", "", "", true⟩]
        ⟨[], [], []⟩ ⟨"Review the budget", "SIGNAL", "", "", ""⟩ =
      ⟨[], [⟨3, "SIGNAL", "", "", ""⟩], ["review the budget"]⟩ := by
  have h := (claim9_completed_items_matched "x"
    [⟨3, "Review budget", "NECESSARY", "", "", "", true⟩] true
    ⟨"Review the budget", "SIGNAL", "", "", ""⟩ ⟨[], [], []⟩
    ⟨3, "Review budget", "NECESSARY", "", "", "", true⟩ (by decide)
    (List.not_mem_nil _) (by with_unfolding_all decide) rfl).2.2.2 (by decide)
  exact h.trans (by with_unfolding_all decide)

/-- C10: the classification-prefix pattern requires no following colon or
whitespace, so a first word merely beginning with "signal", "necessary"
or "noise" loses those characters: `cleanName` maps
"Noise-cancelling headphones" to "-cancelling headphones". -/
theorem claim10_prefix_overstrip :
    cleanName "Noise-cancelling headphones" = "-cancelling headphones" ∧
    normalize "Noise-cancelling headphones" = "cancelling headphones" ∧
    cleanName "Signalling plan" = "ling plan" ∧
    cleanName "necessary-evil cleanup" = "-evil cleanup" ∧
    cleanName "SIGNAL: Review budget" = "Review budget" := by
  decide

end SigSort
